import Mathlib

/-!
Verification of the pyDynamo branch-classification and motility core.

The functions `addedSubtractedTransitioned`, `recursiveFiloTypes`
(`_recursiveFiloTypes` in the source), `fillMasterChanged` (here
`masterChangedMat`), `motility`, `calcFiloLengths` (`_calcFiloLengths`) and
`lastPointWithLabel` (`_lastPointWithLabel`) are shallow embeddings of
`analysis/addedSubtractedTransitioned.py` and `calc/motility.py`.

The Branch/Point geometry layer (`Branch.worldLengths`,
`Branch.cumulativeWorldLengths`, `Branch.isFilo`, `Branch.isAxon`,
`Branch.isBasal`, `Branch.indexInParent`, `util.sortedBranchIDList`,
`util.lastPointWithLabelIdx`, `TDBL`) is not part of the analyzed sources;
those definitions are modelled from the specification and are marked
`Modelled from the spec:` in their doc comments.

Conventions of the embedding:
* Python floats are rationals; the float NaN is `none` in `EFloat`.
  Division by zero yields `none` (NaN/inf collapsed into one absorbing value).
* Python exceptions (AttributeError on a missing root point, ValueError from
  `list.index`, unbounded recursion) are `none` results; recursion through
  branch-id lookup is bounded by an explicit fuel, chosen large enough for
  every well-formed tree.
* Point identities and 3D locations enter the analyzed code only through
  consecutive point-to-point Euclidean distances (spec 4.1), so each point
  carries `segLen`, its path distance from its predecessor; branch ids are
  numeric (the spec's data model allows string or int ids).
* Mutable numpy matrices are lists of rows threaded through the functions;
  `setEntry`/`getEntry` are the cell update/read operations.
-/

namespace PyDynamo

/-- A matrix as a list of rows. -/
abbrev Mat (α : Type) : Type := List (List α)

/-- Read cell `(i, j)` of a matrix, with a default for out-of-range reads. -/
def getEntry (m : Mat α) (i j : Nat) (d : α) : α := (m.getD i []).getD j d

/-- Write cell `(i, j)` of a matrix (out-of-range writes are dropped,
as every write performed by the embedded code is in range). -/
def setEntry (m : Mat α) (i j : Nat) (v : α) : Mat α :=
  m.set i ((m.getD i []).set j v)

/-- A matrix of `r` rows and `c` columns filled with `v`
(`np.full((r, c), v)` and `util.emptyArrayMatrix`). -/
def mkMat (r c : Nat) (v : α) : Mat α := List.replicate r (List.replicate c v)

/-- Pair every element of a list with its index starting at `n`
(Python `enumerate`). -/
def withIdx (n : Nat) : List α → List (Nat × α)
  | [] => []
  | a :: l => (n, a) :: withIdx (n + 1) l

/-- Insert a value into a sorted duplicate-free list, keeping it sorted
and duplicate-free. -/
def insDedup (x : Nat) : List Nat → List Nat
  | [] => [x]
  | y :: l =>
    if x < y then x :: y :: l
    else if x = y then y :: l
    else y :: insDedup x l

/-- Sorted, de-duplicated list of naturals. -/
def sortDedup (l : List Nat) : List Nat := l.foldr insDedup []

/-- Substring containment test (Python `str.find(label) != -1`). -/
def strContains (s pat : String) : Bool := decide (pat.toList <:+: s.toList)

/-- Index accumulation loop of `_lastPointWithLabel`. -/
def lastPointWithLabelGo (label : String) : Nat → Int → List String → Int
  | _, acc, [] => acc
  | i, acc, a :: l =>
    lastPointWithLabelGo label (i + 1)
      (if strContains a label then (i : Int) else acc) l

/-- `_lastPointWithLabel` (motility.py): the index of the last entry whose
text contains `label`, or `-1` if none does.  The same loop also models
`util.lastPointWithLabelIdx` used by the classifier. -/
def lastPointWithLabel (anns : List String) (label : String) : Int :=
  lastPointWithLabelGo label 0 (-1) anns

/-- The morphological role enum (`model.FiloType`), ordered
ABSENT < TERMINAL < INTERSTITIAL < BRANCH_WITH_TERMINAL <
BRANCH_WITH_INTERSTITIAL < BRANCH_ONLY. -/
inductive FiloType where
  | ABSENT
  | TERMINAL
  | INTERSTITIAL
  | BRANCH_WITH_TERMINAL
  | BRANCH_WITH_INTERSTITIAL
  | BRANCH_ONLY
deriving DecidableEq, Repr

/-- Numeric value of a role, matching the IntEnum values used by the
numpy comparisons. -/
def FiloType.val : FiloType → Nat
  | .ABSENT => 0
  | .TERMINAL => 1
  | .INTERSTITIAL => 2
  | .BRANCH_WITH_TERMINAL => 3
  | .BRANCH_WITH_INTERSTITIAL => 4
  | .BRANCH_ONLY => 5

/-- `filoTypes > FiloType.ABSENT`. -/
def filoExistsB (ft : FiloType) : Bool := decide (0 < ft.val)

/-- `filoExists & (filoTypes < FiloType.BRANCH_ONLY)`. -/
def filoB (ft : FiloType) : Bool := filoExistsB ft && decide (ft.val < 5)

/-- `filoTypes > FiloType.TERMINAL`. -/
def branchB (ft : FiloType) : Bool := decide (1 < ft.val)

/-- `branches & filos`. -/
def branchWithFiloB (ft : FiloType) : Bool := branchB ft && filoB ft

/-- `filoTypes == FiloType.BRANCH_ONLY`. -/
def justBranchB (ft : FiloType) : Bool := decide (ft = .BRANCH_ONLY)

mutual
/-- A dendrite branch: its id, the annotation text of its parent point
(`none` models `parentPoint is None`), and its ordered own points. -/
inductive Branch where
  | mk (id : Nat) (parentAnn : Option String) (points : List Point)

/-- A traced point: its free-text annotation, its path distance from the
previous point on its branch (from the parent point for a branch's first
point), and the child branches attached at it. -/
inductive Point where
  | mk (ann : String) (segLen : ℚ) (children : List Branch)
end

/-- Branch id. -/
def Branch.id : Branch → Nat
  | .mk i _ _ => i

/-- Annotation text of the branch's parent point, if any. -/
def Branch.parentAnn : Branch → Option String
  | .mk _ a _ => a

/-- The branch's own points (the parent point excluded). -/
def Branch.points : Branch → List Point
  | .mk _ _ ps => ps

/-- Point annotation text. -/
def Point.ann : Point → String
  | .mk a _ _ => a

/-- Path distance of the point from its predecessor on the branch. -/
def Point.segLen : Point → ℚ
  | .mk _ s _ => s

/-- Child branches attached at the point. -/
def Point.children : Point → List Branch
  | .mk _ _ cs => cs

/-- A branch with zero own points is empty. -/
def Branch.isEmpty (b : Branch) : Bool := b.points.isEmpty

/-- Whether any point of the branch has a child branch. -/
def Branch.hasChildren (b : Branch) : Bool :=
  b.points.any (fun p => !p.children.isEmpty)

/-- Annotation texts of the branch's points in parent-inclusive order
(`pointsWithRoot` with `branch.parentPoint` included when present). -/
def Branch.annsWithRoot (b : Branch) : List String :=
  (match b.parentAnn with
   | some a => [a]
   | none => []) ++ b.points.map Point.ann

/-- Modelled from the spec: branch exclusion scans every point in
parent-inclusive order for an "axon" annotation substring
(`Branch.isAxon`, not under src/). -/
def Branch.isAxon (b : Branch) : Bool :=
  decide (0 ≤ lastPointWithLabel b.annsWithRoot "axon")

/-- Modelled from the spec: branch exclusion scans every point in
parent-inclusive order for a "basal" annotation substring
(`Branch.isBasal`, not under src/). -/
def Branch.isBasal (b : Branch) : Bool :=
  decide (0 ≤ lastPointWithLabel b.annsWithRoot "basal")

/-- Modelled from the spec: total path length of a branch, the sum of
consecutive point-to-point distances with the parent point first
(part of `Branch.worldLengths`, not under src/). -/
def Branch.totalLength (b : Branch) : ℚ :=
  b.points.foldl (fun a p => a + p.segLen) 0

/-- Cumulative-length loop: path length from the parent point up to and
including each point. -/
def cumulativeGo (acc : ℚ) : List Point → List ℚ
  | [] => []
  | p :: l => (acc + p.segLen) :: cumulativeGo (acc + p.segLen) l

/-- Modelled from the spec: cumulative path length at each point index
(`Branch.cumulativeWorldLengths`, not under src/). -/
def Branch.cumulativeLengths (b : Branch) : List ℚ := cumulativeGo 0 b.points

/-- Loop computing the path length up to the last point that has children. -/
def lengthToLastBranchGo (acc best : ℚ) : List Point → ℚ
  | [] => best
  | p :: l =>
    lengthToLastBranchGo (acc + p.segLen)
      (if p.children.isEmpty then best else acc + p.segLen) l

/-- Modelled from the spec: path length up to and including the last point
of the branch that has at least one child branch, `0` when no point has
children (part of `Branch.worldLengths`, not under src/). -/
def Branch.lengthToLastBranch (b : Branch) : ℚ :=
  lengthToLastBranchGo 0 0 b.points

/-- Modelled from the spec: the filopodium test — a branch is a filopodium
iff it is non-empty, has no children, and its total length is at most the
threshold; returns the flag with the branch's total length
(`Branch.isFilo`, not under src/). -/
def Branch.isFilo (b : Branch) (filoDist : ℚ) : Bool × ℚ :=
  (!b.points.isEmpty && !b.hasChildren && decide (b.totalLength ≤ filoDist),
   b.totalLength)

/-- A tree snapshot: optional root point (soma) and the stored list of its
branches (`model/tree/tree.py`). -/
structure Tree where
  rootPoint : Option Point
  branches : List Branch

/-- `Tree.getBranchByID` (tree.py): first stored branch with the given id. -/
def Tree.getBranchByID (t : Tree) (bid : Nat) : Option Branch :=
  t.branches.find? (fun b => b.id == bid)

/-- Modelled from the spec: `Branch.indexInParent` (not under src/) — the
position of the branch inside its parent tree's stored branch list;
`none` models the ValueError Python raises when it is missing. -/
def Tree.branchIndex (t : Tree) (b : Branch) : Option Nat :=
  t.branches.findIdx? (fun x => x.id == b.id)

/-- Modelled from the spec: `util.sortedBranchIDList` (not under src/) — the
sorted, de-duplicated list of all branch ids seen across every snapshot. -/
def sortedBranchIDList (trees : List Tree) : List Nat :=
  sortDedup (trees.flatMap (fun t => t.branches.map Branch.id))

/-- The two mutable accumulator matrices threaded through the classifier:
`filoTypes` and `masterNodes`. -/
structure CState where
  filoTypes : Mat FiloType
  masterNodes : Mat (List Nat)
deriving DecidableEq, Repr

/-- Write `filoTypes[treeIdx][branchIdx]`. -/
def setFT (st : CState) (treeIdx branchIdx : Nat) (v : FiloType) : CState :=
  { st with filoTypes := setEntry st.filoTypes treeIdx branchIdx v }

/-- Write `masterNodes[treeIdx][branchIdx]`. -/
def setMN (st : CState) (treeIdx branchIdx : Nat) (v : List Nat) : CState :=
  { st with masterNodes := setEntry st.masterNodes treeIdx branchIdx v }

/-- Read `filoTypes[treeIdx][branchIdx]` (default ABSENT). -/
def getFT (st : CState) (treeIdx branchIdx : Nat) : FiloType :=
  getEntry st.filoTypes treeIdx branchIdx .ABSENT

/-- Read `masterNodes[treeIdx][branchIdx]` (default the empty list). -/
def getMN (st : CState) (treeIdx branchIdx : Nat) : List Nat :=
  getEntry st.masterNodes treeIdx branchIdx []

/-- `[b.indexInParent() for b in children]`; `none` when a child is missing
from the tree's stored branch list (Python would raise). -/
def branchIdxList (tree : Tree) : List Branch → Option (List Nat)
  | [] => some []
  | b :: l =>
    match tree.branchIndex b, branchIdxList tree l with
    | some i, some l' => some (i :: l')
    | _, _ => none

/-- The inner body of the forced-interstitial downgrade: every child of the
point whose current role is TERMINAL becomes INTERSTITIAL, addressed by
`childBranch.indexInParent()` (lines 140-143 of the classifier). -/
def downgradePoint (tree : Tree) (treeIdx : Nat) :
    List Branch → CState → Option CState
  | [], st => some st
  | c :: rest, st =>
    match tree.branchIndex c with
    | none => none
    | some idx =>
      downgradePoint tree treeIdx rest
        (if getFT st treeIdx idx = .TERMINAL
         then setFT st treeIdx idx .INTERSTITIAL else st)

/-- The forced-interstitial downgrade pass over the points up to and
including the current point (lines 138-145 of the classifier). -/
def downgradePass (tree : Tree) (treeIdx : Nat) :
    List Point → CState → Option CState
  | [], st => some st
  | p :: rest, st =>
    match downgradePoint tree treeIdx p.children st with
    | none => none
    | some st1 => downgradePass tree treeIdx rest st1

/-- The child loop of the classifier (lines 110-135): skip empty or unknown
children; classify filopodium children TERMINAL or INTERSTITIAL by the
distance from the attachment point to the branch end, overriding to
BRANCH_ONLY when the child is the only child at the branch's last point;
recurse (through `recFn`) into non-filopodium children, setting the
forced-interstitial flag.  Returns the updated state and flag. -/
def processChildrenGo (recFn : Nat → CState → Option CState)
    (branchIDList : List Nat) (treeIdx branchIdx : Nat) (branch : Branch)
    (totalLength : ℚ) (cumulativeLengths : List ℚ)
    (terminalDist filoDist : ℚ) (pointIdx : Nat) (point : Point) :
    List Branch → Bool → CState → Option (CState × Bool)
  | [], fi, st => some (st, fi)
  | c :: rest, fi, st =>
    if c.points.length < 1 then
      processChildrenGo recFn branchIDList treeIdx branchIdx branch
        totalLength cumulativeLengths terminalDist filoDist pointIdx point
        rest fi st
    else if !branchIDList.contains c.id then
      processChildrenGo recFn branchIDList treeIdx branchIdx branch
        totalLength cumulativeLengths terminalDist filoDist pointIdx point
        rest fi st
    else
      let childBranchIdx := branchIDList.indexOf c.id
      if (c.isFilo filoDist).1 then
        let distPointToEnd := totalLength - cumulativeLengths.getD pointIdx 0
        let isTerminal := decide (distPointToEnd < terminalDist)
        let st1 := setFT st treeIdx childBranchIdx
          (if isTerminal then .TERMINAL else .INTERSTITIAL)
        let st2 :=
          if point.children.length = 1 ∧ pointIdx = branch.points.length - 1
          then setMN (setFT st1 treeIdx childBranchIdx .BRANCH_ONLY)
                 treeIdx childBranchIdx [branchIdx]
          else st1
        processChildrenGo recFn branchIDList treeIdx branchIdx branch
          totalLength cumulativeLengths terminalDist filoDist pointIdx point
          rest fi st2
      else
        match recFn childBranchIdx st with
        | none => none
        | some st1 =>
          processChildrenGo recFn branchIDList treeIdx branchIdx branch
            totalLength cumulativeLengths terminalDist filoDist pointIdx point
            rest true st1

/-- After the child loop of one point: run the forced-interstitial
downgrade pass over the points up to the current one when the flag was
set (lines 137-145). -/
def walkAfterChildren (tree : Tree) (treeIdx : Nat) (branch : Branch)
    (pointIdx : Nat) (st1 : CState) (fi1 : Bool) : Option CState :=
  if fi1
  then downgradePass tree treeIdx (branch.points.take (pointIdx + 1)) st1
  else some st1

/-- The point walk of the classifier (lines 104-145): skip childless points,
reset the forced-interstitial flag at each point with children, run the
child loop, then the downgrade pass when the flag was set. -/
def walkPointsGo (recFn : Nat → CState → Option CState)
    (branchIDList : List Nat) (tree : Tree) (treeIdx branchIdx : Nat)
    (branch : Branch) (totalLength : ℚ) (cumulativeLengths : List ℚ)
    (terminalDist filoDist : ℚ) :
    List (Nat × Point) → Bool → CState → Option (CState × Bool)
  | [], fi, st => some (st, fi)
  | (pointIdx, point) :: rest, fi, st =>
    if point.children.length = 0 then
      walkPointsGo recFn branchIDList tree treeIdx branchIdx branch
        totalLength cumulativeLengths terminalDist filoDist rest fi st
    else
      match processChildrenGo recFn branchIDList treeIdx branchIdx branch
              totalLength cumulativeLengths terminalDist filoDist
              pointIdx point point.children false st with
      | none => none
      | some (st1, fi1) =>
        match walkAfterChildren tree treeIdx branch pointIdx st1 fi1 with
        | none => none
        | some st2 =>
          walkPointsGo recFn branchIDList tree treeIdx branchIdx branch
            totalLength cumulativeLengths terminalDist filoDist rest fi1 st2

/-- The last point of the branch that has children, scanning from the end
(lines 159-163 of the classifier). -/
def lastPointWithChildren (points : List Point) : Option Point :=
  points.reverse.find? (fun p => !p.children.isEmpty)

/-- The final own-role step of the classifier (lines 148-174): decide this
branch's role and master nodes from the trailing segment past its last
branching point. -/
def finishBranch (tree : Tree) (treeIdx branchIdx : Nat) (branch : Branch)
    (totalLength totalLengthToLastBranch filoDist : ℚ) (fi : Bool)
    (st : CState) : Option CState :=
  let totalDist := totalLength - totalLengthToLastBranch
  if 0 < totalDist ∧ totalDist < filoDist then
    let st1 := setFT st treeIdx branchIdx
      (if fi then .BRANCH_WITH_INTERSTITIAL else .BRANCH_WITH_TERMINAL)
    match lastPointWithChildren branch.points with
    | none => some st1
    | some p =>
      match branchIdxList tree p.children with
      | none => none
      | some idxs => some (setMN st1 treeIdx branchIdx idxs)
  else if totalDist = 0 then
    let st1 := setFT st treeIdx branchIdx .BRANCH_ONLY
    match branch.points.getLast? with
    | none => none
    | some lastP =>
      match branchIdxList tree lastP.children with
      | none => none
      | some idxs => some (setMN st1 treeIdx branchIdx idxs)
  else
    some (setMN (setFT st treeIdx branchIdx .BRANCH_ONLY)
            treeIdx branchIdx [branchIdx])

/-- `_recursiveFiloTypes`: classify the branch at the given global index of
`branchIDList` inside snapshot `treeIdx`, writing roles and master nodes
into the state.  `none` models a Python error (exhausted recursion or a
failed `indexInParent` lookup). -/
def recursiveFiloTypes :
    Nat → List Nat → Tree → Nat → Nat → Bool → Bool → ℚ → ℚ → CState →
    Option CState
  | 0, _, _, _, _, _, _, _, _, _ => none
  | fuel + 1, branchIDList, tree, treeIdx, branchIdx, excludeAxon,
      excludeBasal, terminalDist, filoDist, st =>
    match tree.getBranchByID (branchIDList.getD branchIdx 0) with
    | none => some (setFT st treeIdx branchIdx .ABSENT)
    | some branch =>
      if branch.isEmpty || (excludeAxon && branch.isAxon)
          || (excludeBasal && branch.isBasal) then
        some (setFT st treeIdx branchIdx .ABSENT)
      else if !branch.hasChildren
          && decide (0 ≤ lastPointWithLabel branch.annsWithRoot "lam") then
        some (setFT st treeIdx branchIdx .BRANCH_ONLY)
      else
        let totalLength := branch.totalLength
        let totalLengthToLastBranch := branch.lengthToLastBranch
        let cumulativeLengths := branch.cumulativeLengths
        match walkPointsGo
                (fun bIdx s =>
                  recursiveFiloTypes fuel branchIDList tree treeIdx bIdx
                    excludeAxon excludeBasal terminalDist filoDist s)
                branchIDList tree treeIdx branchIdx branch totalLength
                cumulativeLengths terminalDist filoDist
                (withIdx 0 branch.points) false st with
        | none => none
        | some (st1, fi) =>
          finishBranch tree treeIdx branchIdx branch totalLength
            totalLengthToLastBranch filoDist fi st1

/-- Inner loop of the classification phase: classify every child branch of
the snapshot's root point (lines 51-56); `none` models the ValueError of
`branchIDList.index` on an unknown id. -/
def classifyRootChildren (fuel : Nat) (branchIDList : List Nat) (tree : Tree)
    (treeIdx : Nat) (excludeAxon excludeBasal : Bool)
    (terminalDist filoDist : ℚ) :
    List Branch → CState → Option CState
  | [], st => some st
  | b :: rest, st =>
    match branchIDList.indexOf? b.id with
    | none => none
    | some branchIdx =>
      match recursiveFiloTypes fuel branchIDList tree treeIdx branchIdx
              excludeAxon excludeBasal terminalDist filoDist st with
      | none => none
      | some st1 =>
        classifyRootChildren fuel branchIDList tree treeIdx excludeAxon
          excludeBasal terminalDist filoDist rest st1

/-- Classification phase over all snapshots (lines 47-56): snapshots with
no branches or no root point are skipped. -/
def classifyTrees (fuel : Nat) (branchIDList : List Nat)
    (excludeAxon excludeBasal : Bool) (terminalDist filoDist : ℚ) :
    List (Nat × Tree) → CState → Option CState
  | [], st => some st
  | (treeIdx, tree) :: rest, st =>
    if 0 < tree.branches.length then
      match tree.rootPoint with
      | some root =>
        match classifyRootChildren fuel branchIDList tree treeIdx
                excludeAxon excludeBasal terminalDist filoDist
                root.children st with
        | none => none
        | some st1 =>
          classifyTrees fuel branchIDList excludeAxon excludeBasal
            terminalDist filoDist rest st1
      | none =>
        classifyTrees fuel branchIDList excludeAxon excludeBasal
          terminalDist filoDist rest st
    else
      classifyTrees fuel branchIDList excludeAxon excludeBasal
        terminalDist filoDist rest st

/-- `added` cell formula of line 67, for one (before, after) role pair. -/
def addedCell (bf af : FiloType) : Bool :=
  (!filoExistsB bf && filoB af) || (justBranchB bf && branchWithFiloB af)

/-- `subtracted` cell formula of line 68. -/
def subtractedCell (bf af : FiloType) : Bool :=
  (filoB bf && !filoExistsB af) || (branchWithFiloB bf && justBranchB af)

/-- `transitioned` cell formula of line 69. -/
def transitionedCell (bf af : FiloType) : Bool :=
  filoB bf && !branchB bf && branchB af

/-- Build an `(nTrees-1) x nBranches` matrix by applying a cell formula to
the role at `t` and at `t+1` (the numpy `[:-1]`/`[1:]` slicing). -/
def buildPairMat (filoTypes : Mat FiloType) (nTrees nBranches : Nat)
    (f : FiloType → FiloType → Bool) : Mat Bool :=
  (List.range (nTrees - 1)).map (fun t =>
    (List.range nBranches).map (fun b =>
      f (getEntry filoTypes t b .ABSENT) (getEntry filoTypes (t + 1) b .ABSENT)))

/-- `fillMasterChanged`: the master-node set at `t+1` is non-empty and
shares no index with the set at `t`. -/
def masterChangedMat (masterNodes : Mat (List Nat)) (nTrees nBranches : Nat) :
    Mat Bool :=
  (List.range (nTrees - 1)).map (fun t =>
    (List.range nBranches).map (fun b =>
      let l1 := getEntry masterNodes t b []
      let l2 := getEntry masterNodes (t + 1) b []
      !l2.isEmpty && !l1.any (fun x => l2.contains x)))

/-- The numpy boolean-mask assignment `m[mask] = False`, cell by cell. -/
def maskFalse (m mask : Mat Bool) : Mat Bool :=
  List.zipWith (fun rm rk => List.zipWith (fun v k => v && !k) rm rk) m mask

/-- The six outputs of `addedSubtractedTransitioned`. -/
structure ASTResult where
  filoTypes : Mat FiloType
  added : Mat Bool
  subtracted : Mat Bool
  transitioned : Mat Bool
  masterChanged : Mat Bool
  masterNodes : Mat (List Nat)
deriving DecidableEq, Repr

/-- Fuel bound for the id-lookup recursion of the classifier: one more than
the total number of stored branches, which exceeds the depth of any chain
of distinct branches inside one snapshot. -/
def defaultFuel (trees : List Tree) : Nat :=
  1 + trees.foldl (fun a t => a + t.branches.length) 0

/-- Initial classifier state of `addedSubtractedTransitioned`: all roles
ABSENT, all master-node sets empty, sized snapshots x global branch ids. -/
def astInitState (trees : List Tree) : CState :=
  ⟨mkMat trees.length (sortedBranchIDList trees).length .ABSENT,
   mkMat trees.length (sortedBranchIDList trees).length []⟩

/-- `addedSubtractedTransitioned` with explicit fuel. -/
def addedSubtractedTransitionedF (fuel : Nat) (trees : List Tree)
    (excludeAxon excludeBasal : Bool) (terminalDist filoDist : ℚ) :
    Option ASTResult :=
  match classifyTrees fuel (sortedBranchIDList trees) excludeAxon excludeBasal
          terminalDist filoDist (withIdx 0 trees) (astInitState trees) with
  | none => none
  | some st =>
    some ⟨st.filoTypes,
      maskFalse
        (buildPairMat st.filoTypes trees.length
          (sortedBranchIDList trees).length addedCell)
        (masterChangedMat st.masterNodes trees.length
          (sortedBranchIDList trees).length),
      maskFalse
        (buildPairMat st.filoTypes trees.length
          (sortedBranchIDList trees).length subtractedCell)
        (masterChangedMat st.masterNodes trees.length
          (sortedBranchIDList trees).length),
      buildPairMat st.filoTypes trees.length
        (sortedBranchIDList trees).length transitionedCell,
      masterChangedMat st.masterNodes trees.length
        (sortedBranchIDList trees).length,
      st.masterNodes⟩

/-- `addedSubtractedTransitioned`: classify all branches across time and
derive the added/subtracted/transitioned/masterChanged matrices. -/
def addedSubtractedTransitioned (trees : List Tree)
    (excludeAxon excludeBasal : Bool) (terminalDist filoDist : ℚ) :
    Option ASTResult :=
  addedSubtractedTransitionedF (defaultFuel trees) trees excludeAxon
    excludeBasal terminalDist filoDist

/-- A Python float in the motility pipeline: `none` is NaN. -/
abbrev EFloat : Type := Option ℚ

/-- Float subtraction with NaN propagation. -/
def eSub (a b : EFloat) : EFloat :=
  match a, b with
  | some x, some y => some (x - y)
  | _, _ => none

/-- Float negation with NaN propagation. -/
def eNeg (a : EFloat) : EFloat := a.map (fun x => -x)

/-- `np.nansum` over a row: NaN entries are skipped, an all-NaN row sums
to zero. -/
def eNanSum (l : List EFloat) : ℚ :=
  l.foldl (fun a v => a + v.getD 0) 0

/-- Rational division producing NaN on a zero divisor (numpy's NaN/inf
outcomes of dividing by zero collapse to the absorbing NaN value). -/
def qDivE (x y : ℚ) : EFloat := if y = 0 then none else some (x / y)

/-- The `excludeAxon`/`excludeBasal` guard of `_calcFiloLengths` (lines
79-89): scans `[branch.parentPoint] + branch.points` for the label.
`none` models the AttributeError on a `None` parent point; the guard is
only reached when the branch has points. -/
def labelGuard (ex : Bool) (b : Branch) (label : String) : Option Bool :=
  if ex then
    match b.parentAnn with
    | none => none
    | some pa =>
      some (decide (0 ≤ lastPointWithLabel (pa :: b.points.map Point.ann) label))
  else
    some false

/-- Child-list loop of step 5 of `_calcFiloLengths`, threading the
filopodium-length matrix through `recFn`. -/
def calcChildrenGoB (recFn : Branch → Mat EFloat → Option (Mat EFloat)) :
    List Branch → Mat EFloat → Option (Mat EFloat)
  | [], st => some st
  | c :: rest, st =>
    match recFn c st with
    | none => none
    | some st1 => calcChildrenGoB recFn rest st1

/-- The recursion of step 5 of `_calcFiloLengths` over every child branch of
every point. -/
def calcChildrenGo (recFn : Branch → Mat EFloat → Option (Mat EFloat)) :
    List Point → Mat EFloat → Option (Mat EFloat)
  | [], st => some st
  | p :: rest, st =>
    match calcChildrenGoB recFn p.children st with
    | none => none
    | some st1 => calcChildrenGo recFn rest st1

/-- Step 6 of `_calcFiloLengths` (lines 106-110): `lengthPastLastBranch`
defaults to `filoDist + 1` and is replaced by the trailing-segment length
when `totalLengthToLastBranch` is strictly positive; the branch contributes
that length only when it is strictly below `filoDist`, else 0. -/
def trailingFiloLength (b : Branch) (filoDist : ℚ) : ℚ :=
  let lengthPastLastBranch :=
    if 0 < b.lengthToLastBranch
    then b.totalLength - b.lengthToLastBranch
    else filoDist + 1
  if lengthPastLastBranch < filoDist then lengthPastLastBranch else 0

/-- `_calcFiloLengths`: fill the filopodium-length cell of this branch (at
its `indexInParent` column) and, recursively, of all branches below it.
Empty branch: 0; axon/basal excluded: NaN; filopodium: its length;
otherwise the trailing segment past the last branching point when strictly
below `filoDist`, else 0. -/
def calcFiloLengths :
    Nat → Tree → Nat → Bool → Bool → ℚ → Branch → Mat EFloat →
    Option (Mat EFloat)
  | 0, _, _, _, _, _, _, _ => none
  | fuel + 1, tree, treeIdx, excludeAxon, excludeBasal, filoDist, b, st =>
    match tree.branchIndex b with
    | none => none
    | some branchIdx =>
      if b.points.length + 1 < 2 then
        some (setEntry st treeIdx branchIdx (some 0))
      else
        match labelGuard excludeAxon b "axon" with
        | none => none
        | some true => some (setEntry st treeIdx branchIdx none)
        | some false =>
          match labelGuard excludeBasal b "basal" with
          | none => none
          | some true => some (setEntry st treeIdx branchIdx none)
          | some false =>
            if (b.isFilo filoDist).1 then
              some (setEntry st treeIdx branchIdx (some (b.isFilo filoDist).2))
            else
              match calcChildrenGo
                      (fun c s =>
                        calcFiloLengths fuel tree treeIdx excludeAxon
                          excludeBasal filoDist c s)
                      b.points st with
              | none => none
              | some st1 =>
                some (setEntry st1 treeIdx branchIdx
                  (some (trailingFiloLength b filoDist)))

/-- Modelled from the spec: `TDBL` (not under src/) — total dendritic branch
length of a snapshot, the filopodium-inclusive sum of branch path lengths,
excluded axon/basal branches skipped. -/
def TDBL (t : Tree) (excludeAxon excludeBasal includeFilo : Bool)
    (filoDist : ℚ) : ℚ :=
  t.branches.foldl
    (fun a b =>
      if (excludeAxon && b.isAxon) || (excludeBasal && b.isBasal) then a
      else if !includeFilo && (b.isFilo filoDist).1 then a
      else a + b.totalLength) 0

/-- The per-snapshot loop of `motility` (lines 31-34): record the snapshot's
TDBL and fill filopodium lengths from every root child.  `none` models the
AttributeError raised by `tree.rootPoint.children` on a rootless tree. -/
def motilityLoop (fuel : Nat) (excludeAxon excludeBasal : Bool)
    (filoDist : ℚ) :
    List (Nat × Tree) → Mat EFloat → Option (List ℚ × Mat EFloat)
  | [], st => some ([], st)
  | (treeIdx, tree) :: rest, st =>
    let tdbl := TDBL tree excludeAxon excludeBasal true filoDist
    match tree.rootPoint with
    | none => none
    | some root =>
      match calcChildrenGoB
              (fun c s =>
                calcFiloLengths fuel tree treeIdx excludeAxon excludeBasal
                  filoDist c s)
              root.children st with
      | none => none
      | some st1 =>
        match motilityLoop fuel excludeAxon excludeBasal filoDist rest st1 with
        | none => none
        | some (tdbls, st2) => some (tdbl :: tdbls, st2)

/-- The numpy mask assignment `rawMotility[masterChangedOut] = np.nan`,
cell by cell. -/
def maskNaN (m : Mat EFloat) (mask : Mat Bool) : Mat EFloat :=
  (withIdx 0 m).map (fun tr =>
    (withIdx 0 tr.2).map (fun bv =>
      if getEntry mask tr.1 bv.1 false then none else bv.2))

/-- The optional add/subtract overwrite of lines 43-45:
`rawMotility[added] = lengthAdded[added]` then
`rawMotility[subtracted] = -lengthSubtracted[subtracted]`. -/
def applyAddSub (m la ls : Mat EFloat) (added subtracted : Mat Bool) :
    Mat EFloat :=
  (withIdx 0 m).map (fun tr =>
    (withIdx 0 tr.2).map (fun bv =>
      if getEntry subtracted tr.1 bv.1 false then
        eNeg (getEntry ls tr.1 bv.1 none)
      else if getEntry added tr.1 bv.1 false then
        getEntry la tr.1 bv.1 none
      else bv.2))

/-- `filoLengthWithNan` of lines 47-48: the first `nTrees-1` rows of the
length matrix with NaN wherever raw motility is NaN. -/
def filoLengthWithNan (fl : Mat EFloat) (raw : Mat EFloat) : Mat EFloat :=
  (withIdx 0 (fl.take raw.length)).map (fun tr =>
    (withIdx 0 tr.2).map (fun bv =>
      if (getEntry raw tr.1 bv.1 none).isNone then none else bv.2))

/-- The per-snapshot filopodium count of line 50:
`np.sum((filoTypes > ABSENT) & (filoTypes < BRANCH_ONLY), axis=1)`. -/
def nFiloRow (row : List FiloType) : Nat := (row.filter filoB).length

/-- The four aggregate outputs of `motility`. -/
structure MotilityResult where
  raw : Mat EFloat
  rawTDBL : List EFloat
  rawFilo : List EFloat
  rawNFilo : List EFloat
deriving DecidableEq, Repr

/-- `motility` with explicit fuel for the branch recursions. -/
def motilityF (fuel : Nat) (trees : List Tree)
    (excludeAxon excludeBasal includeAS : Bool)
    (terminalDist filoDist : ℚ) : Option (MotilityResult × Mat EFloat) :=
  match addedSubtractedTransitionedF fuel trees excludeAxon excludeBasal
          terminalDist filoDist with
  | none => none
  | some astr =>
    match trees.getLast? with
    | none => none
    | some lastTree =>
      let nTrees := trees.length
      let nBranches := lastTree.branches.length
      let fl0 : Mat EFloat := mkMat nTrees nBranches none
      match motilityLoop fuel excludeAxon excludeBasal filoDist
              (withIdx 0 trees) fl0 with
      | none => none
      | some (allTDBL, fl) =>
        let lengthAdded := fl.drop 1
        let lengthSubtracted := fl.dropLast
        let raw0 := List.zipWith (List.zipWith eSub) lengthAdded lengthSubtracted
        let raw1 := maskNaN raw0 astr.masterChanged
        let raw2 :=
          if includeAS
          then applyAddSub raw1 lengthAdded lengthSubtracted astr.added
                 astr.subtracted
          else raw1
        let fwn := filoLengthWithNan fl raw2
        let nFilo := astr.filoTypes.map nFiloRow
        let rawSums := raw2.map eNanSum
        let rawTDBL := List.zipWith qDivE rawSums allTDBL.dropLast
        let rawFilo := List.zipWith (fun s row => qDivE s (eNanSum row))
          rawSums fwn
        let rawNFilo := List.zipWith (fun s n => qDivE s (n : ℚ))
          rawSums nFilo.dropLast
        some (⟨raw2, rawTDBL, rawFilo, rawNFilo⟩, fl)

/-- `motility`: difference filopodium lengths between consecutive snapshots,
mask identity changes, and normalize per transition. -/
def motility (trees : List Tree) (excludeAxon excludeBasal includeAS : Bool)
    (terminalDist filoDist : ℚ) : Option (MotilityResult × Mat EFloat) :=
  motilityF (defaultFuel trees) trees excludeAxon excludeBasal includeAS
    terminalDist filoDist

/-- An unannotated point. -/
def pt (s : ℚ) (cs : List Branch) : Point := .mk "" s cs

/-- An unannotated branch attached to an unannotated parent point. -/
def br (i : Nat) (ps : List Point) : Branch := .mk i (some "") ps

/-- Example: a trunk branch (id 10) whose single point carries two short
filopodium children (ids 20, 30). -/
def exA0 : Tree :=
  ⟨some (pt 0 [br 10 [pt 3 [br 20 [pt 2 []], br 30 [pt 2 []]]]]),
   [br 10 [pt 3 [br 20 [pt 2 []], br 30 [pt 2 []]]],
    br 20 [pt 2 []], br 30 [pt 2 []]]⟩

/-- Example: only branch id 20 remains, regrown into a long trunk. -/
def exA1 : Tree := ⟨some (pt 0 [br 20 [pt 20 []]]), [br 20 [pt 20 []]]⟩

/-- Two-snapshot sequence in which branch 20 turns from a terminal
filopodium into a trunk while its master node appears. -/
def exTreesA : List Tree := [exA0, exA1]

/-- Snapshot with stored branch order [1, 2]: two root filopodia. -/
def exB0 : Tree :=
  ⟨some (pt 0 [br 1 [pt 3 []], br 2 [pt 5 []]]),
   [br 1 [pt 3 []], br 2 [pt 5 []]]⟩

/-- The same two root filopodia with stored branch order [2, 1]. -/
def exB1 : Tree :=
  ⟨some (pt 0 [br 2 [pt 5 []], br 1 [pt 3 []]]),
   [br 2 [pt 5 []], br 1 [pt 3 []]]⟩

/-- Sequence whose second snapshot stores its branches in a different
order than the global sorted id list. -/
def exTreesB : List Tree := [exB0, exB1]

/-- Trunk branch 1 with an interior filopodium child 2 (length 3) and a
short trailing segment. -/
def exC0 : Tree :=
  ⟨some (pt 0 [br 1 [pt 5 [br 2 [pt 3 []]], pt 4 []]]),
   [br 1 [pt 5 [br 2 [pt 3 []]], pt 4 []], br 2 [pt 3 []]]⟩

/-- The same structure with the filopodium grown to length 5. -/
def exC1 : Tree :=
  ⟨some (pt 0 [br 1 [pt 5 [br 2 [pt 5 []]], pt 4 []]]),
   [br 1 [pt 5 [br 2 [pt 5 []]], pt 4 []], br 2 [pt 5 []]]⟩

/-- Sequence whose starting snapshot holds one strict filopodium (role
TERMINAL) and one BRANCH_WITH_TERMINAL trunk. -/
def exTreesC : List Tree := [exC0, exC1]

/-- A short filopodium child used by the trailing-segment examples. -/
def bC7c : Branch := br 2 [pt 3 []]

/-- A branch whose trailing segment past its last branching point is
exactly 10. -/
def bC7 : Branch := br 1 [pt 5 [bC7c], pt 10 []]

/-- Snapshot holding `bC7` and its child. -/
def exTreeC7 : Tree := ⟨some (pt 0 [bC7]), [bC7, bC7c]⟩

/-- A childless branch of total length 20: too long to be a filopodium,
with no branching point at all. -/
def bC9 : Branch := br 1 [pt 20 []]

/-- Snapshot holding `bC9`. -/
def exTreeC9 : Tree := ⟨some (pt 0 [bC9]), [bC9]⟩

/-- An entirely empty snapshot: no root point, no branches. -/
def exEmptyTree : Tree := ⟨none, []⟩

/-- Sequence starting with an entirely empty snapshot. -/
def exTreesD : List Tree := [exEmptyTree, exB0]

/-- A filopodium child (length 3) attached at an interior point. -/
def cC4 : Branch := br 3 [pt 3 []]

/-- A parent branch whose first point carries `cC4` and whose last point is
childless: the child is not the only child at the last point. -/
def bC4 : Branch := br 5 [pt 2 [cC4], pt 4 []]

/-- Snapshot holding `bC4` and its child. -/
def exTreeC4 : Tree := ⟨some (pt 0 [bC4]), [bC4, cC4]⟩

/-- A filopodium child (length 4) attached at a branch's last point. -/
def cC6 : Branch := br 3 [pt 4 []]

/-- A parent branch whose last point has `cC6` as its only child. -/
def bC6 : Branch := br 5 [pt 2 [], pt 3 [cC6]]

/-- Snapshot holding `bC6` and its child. -/
def exTreeC6 : Tree := ⟨some (pt 0 [bC6]), [bC6, cC6]⟩

/-- Rows other than `treeIdx` of both classifier matrices are unchanged. -/
def rowsFrozen (treeIdx : Nat) (st st' : CState) : Prop :=
  ∀ r, r ≠ treeIdx →
    st'.filoTypes[r]? = st.filoTypes[r]? ∧
      st'.masterNodes[r]? = st.masterNodes[r]?

/-- The denominator the claim describes, following the spec's words: the
count of branches classified TERMINAL or INTERSTITIAL, strictly. -/
def specStrictFiloCount (row : List FiloType) : Nat :=
  (row.filter (fun ft =>
    decide (ft = FiloType.TERMINAL ∨ ft = FiloType.INTERSTITIAL))).length

/-- A child that, when non-empty and known to the global id list, passes the
filopodium test: such children are classified in place and never recursed
into. -/
def FiloOnly (bl : List Nat) (fD : ℚ) (c : Branch) : Prop :=
  1 ≤ c.points.length → c.id ∈ bl → (c.isFilo fD).1 = true

instance (bl : List Nat) (fD : ℚ) (c : Branch) :
    Decidable (FiloOnly bl fD c) := by
  unfold FiloOnly
  infer_instance

/-- Row `r` of a matrix, the empty row when out of range. -/
def rowAt (m : Mat α) (r : Nat) : List α := m[r]?.getD []

/-- Two matrices with equal row count and equal row widths. -/
def sameShape (m m' : Mat α) : Prop :=
  m.length = m'.length ∧ ∀ r, (rowAt m r).length = (rowAt m' r).length

/-- Shape agreement of both classifier matrices. -/
def cShape (st st' : CState) : Prop :=
  sameShape st.filoTypes st'.filoTypes ∧
    sameShape st.masterNodes st'.masterNodes

theorem sameShape_refl (m : Mat α) : sameShape m m := ⟨rfl, fun _ => rfl⟩

theorem sameShape_trans {m1 m2 m3 : Mat α} (h1 : sameShape m1 m2)
    (h2 : sameShape m2 m3) : sameShape m1 m3 :=
  ⟨h1.1.trans h2.1, fun r => (h1.2 r).trans (h2.2 r)⟩

theorem cShape_refl (st : CState) : cShape st st :=
  ⟨sameShape_refl _, sameShape_refl _⟩

theorem cShape_trans {s1 s2 s3 : CState} (h1 : cShape s1 s2)
    (h2 : cShape s2 s3) : cShape s1 s3 :=
  ⟨sameShape_trans h1.1 h2.1, sameShape_trans h1.2 h2.2⟩

theorem getElem?_set' (l : List α) (i j : Nat) (a : α) :
    (l.set i a)[j]? = if i = j ∧ i < l.length then some a else l[j]? := by
  by_cases hij : i = j
  · subst hij
    by_cases hi : i < l.length
    · simp [List.getElem?_set_eq_of_lt a hi, hi]
    · have h1 : (l.set i a)[i]? = none :=
        List.getElem?_eq_none (by simpa using Nat.le_of_not_lt hi)
      have h2 : l[i]? = none := List.getElem?_eq_none (Nat.le_of_not_lt hi)
      simp [h1, h2, hi]
  · simp [List.getElem?_set_ne hij, hij]

theorem getEntry_def (m : Mat α) (i j : Nat) (d : α) :
    getEntry m i j d = (rowAt m i)[j]?.getD d := by
  simp [getEntry, rowAt, List.getD_eq_getElem?_getD]

theorem setEntry_length (m : Mat α) (i j : Nat) (v : α) :
    (setEntry m i j v).length = m.length := by
  simp [setEntry]

theorem setEntry_rowAt (m : Mat α) (i j r : Nat) (v : α) :
    rowAt (setEntry m i j v) r =
      if i = r ∧ i < m.length then (rowAt m i).set j v else rowAt m r := by
  simp only [rowAt, setEntry, List.getD_eq_getElem?_getD, getElem?_set' m i r]
  by_cases hir : i = r ∧ i < m.length
  · rcases hir with ⟨h1, h2⟩
    subst h1
    simp [h2, List.getD_eq_getElem?_getD]
  · simp [hir]

theorem rowAt_in_range (m : Mat α) (i : Nat) (hi : i < m.length) :
    rowAt m i = m[i] := by
  simp [rowAt, List.getElem?_eq_getElem hi]

theorem getEntry_setEntry_self (m : Mat α) (i j : Nat) (v d : α)
    (hi : i < m.length) (hj : j < (rowAt m i).length) :
    getEntry (setEntry m i j v) i j d = v := by
  rw [getEntry_def, setEntry_rowAt, if_pos ⟨rfl, hi⟩,
    List.getElem?_set_eq_of_lt v hj]
  rfl

theorem getEntry_setEntry_rne (m : Mat α) (i j r c : Nat) (v d : α)
    (hr : r ≠ i) : getEntry (setEntry m i j v) r c d = getEntry m r c d := by
  rw [getEntry_def, getEntry_def, setEntry_rowAt,
    if_neg (fun h => hr h.1.symm)]

theorem getEntry_setEntry_cne (m : Mat α) (i j r c : Nat) (v d : α)
    (hc : c ≠ j) : getEntry (setEntry m i j v) r c d = getEntry m r c d := by
  rw [getEntry_def, getEntry_def, setEntry_rowAt]
  by_cases hir : i = r ∧ i < m.length
  · rw [if_pos hir, List.getElem?_set_ne (fun h : j = c => hc h.symm), hir.1]
  · rw [if_neg hir]

theorem sameShape_setEntry (m : Mat α) (i j : Nat) (v : α) :
    sameShape m (setEntry m i j v) := by
  refine ⟨(setEntry_length m i j v).symm, fun r => ?_⟩
  rw [setEntry_rowAt]
  by_cases hir : i = r ∧ i < m.length
  · rw [if_pos hir, List.length_set, hir.1]
  · rw [if_neg hir]

theorem getEntry_oor_row (m : Mat α) (i j : Nat) (d : α)
    (hi : m.length ≤ i) : getEntry m i j d = d := by
  rw [getEntry_def]
  simp [rowAt, List.getElem?_eq_none hi]

theorem mkMat_rowAt (r c i : Nat) (v : α) (hi : i < r) :
    rowAt (mkMat r c v) i = List.replicate c v := by
  rw [rowAt, mkMat, List.getElem?_eq_getElem (by simpa using hi)]
  simp

theorem getEntry_mkMat_self (r c i j : Nat) (v d : α) (hi : i < r)
    (hj : j < c) : getEntry (mkMat r c v) i j d = v := by
  rw [getEntry_def, mkMat_rowAt r c i v hi,
    List.getElem?_eq_getElem (by simpa using hj)]
  simp

theorem withIdx_append (n : Nat) (xs ys : List α) :
    withIdx n (xs ++ ys) = withIdx n xs ++ withIdx (n + xs.length) ys := by
  induction xs generalizing n with
  | nil => simp [withIdx]
  | cons a l ih =>
    have harith : n + 1 + l.length = n + (l.length + 1) := by omega
    simp only [List.cons_append, withIdx, List.length_cons]
    rw [show l.append ys = l ++ ys from rfl, ih (n + 1), harith]

theorem withIdx_mem (n : Nat) (l : List α) (p : Nat × α)
    (h : p ∈ withIdx n l) : p.2 ∈ l ∧ n ≤ p.1 ∧ l[p.1 - n]? = some p.2 := by
  induction l generalizing n with
  | nil => simp [withIdx] at h
  | cons a t ih =>
    simp only [withIdx, List.mem_cons] at h
    rcases h with h | h
    · subst h
      simp
    · rcases ih (n + 1) h with ⟨h1, h2, h3⟩
      refine ⟨List.mem_cons_of_mem _ h1, by omega, ?_⟩
      have : p.1 - n = (p.1 - (n + 1)) + 1 := by omega
      rw [this]
      simpa using h3

theorem zipAndNot_getD_of_true (r1 r2 : List Bool) (b : Nat)
    (h : r2.getD b false = true) :
    (List.zipWith (fun v k => v && !k) r1 r2).getD b false = false := by
  induction r1 generalizing r2 b with
  | nil => simp [List.zipWith]
  | cons x l ih =>
    cases r2 with
    | nil => simp at h
    | cons y t =>
      cases b with
      | zero => simp at h; simp [h]
      | succ b' => exact ih t b' h

theorem zipAndNot_getD_imp (r1 r2 : List Bool) (b : Nat)
    (h : (List.zipWith (fun v k => v && !k) r1 r2).getD b false = true) :
    r1.getD b false = true ∧ r2.getD b false = false := by
  induction r1 generalizing r2 b with
  | nil => simp [List.zipWith] at h
  | cons x l ih =>
    cases r2 with
    | nil => simp [List.zipWith] at h
    | cons y t =>
      cases b with
      | zero =>
        simp only [List.zipWith, List.getD_cons_zero] at h
        rcases Bool.and_eq_true_iff.mp h with ⟨h1, h2⟩
        exact ⟨h1, by simpa using h2⟩
      | succ b' => exact ih t b' h

theorem maskFalse_getEntry_of_mask (m mask : Mat Bool) (t b : Nat)
    (h : getEntry mask t b false = true) :
    getEntry (maskFalse m mask) t b false = false := by
  induction m generalizing mask t with
  | nil => simp [maskFalse, List.zipWith, getEntry]
  | cons r1 m' ih =>
    cases mask with
    | nil => simp [getEntry] at h
    | cons r2 mask' =>
      cases t with
      | zero =>
        simp only [getEntry, List.getD_cons_zero] at h ⊢
        exact zipAndNot_getD_of_true r1 r2 b h
      | succ t' =>
        simp only [getEntry, List.getD_cons_succ] at h ⊢
        exact ih mask' t' h

theorem maskFalse_getEntry_imp (m mask : Mat Bool) (t b : Nat)
    (h : getEntry (maskFalse m mask) t b false = true) :
    getEntry m t b false = true ∧ getEntry mask t b false = false := by
  induction m generalizing mask t with
  | nil => simp [maskFalse, List.zipWith, getEntry] at h
  | cons r1 m' ih =>
    cases mask with
    | nil => simp [maskFalse, List.zipWith, getEntry] at h
    | cons r2 mask' =>
      cases t with
      | zero =>
        simp only [maskFalse, getEntry, List.getD_cons_zero] at h ⊢
        exact zipAndNot_getD_imp r1 r2 b h
      | succ t' =>
        simp only [maskFalse, getEntry, List.getD_cons_succ] at h ⊢
        exact ih mask' t' h

theorem rangeMapMat_getEntry (nT nB t b : Nat) (g : Nat → Nat → α) (d : α)
    (h1 : t < nT) (h2 : b < nB) :
    getEntry ((List.range nT).map (fun t' =>
      (List.range nB).map (fun b' => g t' b'))) t b d = g t b := by
  rw [getEntry_def, rowAt]
  rw [List.getElem?_map, List.getElem?_range h1]
  simp only [Option.map_some', Option.getD_some]
  rw [List.getElem?_map, List.getElem?_range h2]
  rfl

theorem rangeMapMat_getEntry_oor (nT nB t b : Nat) (g : Nat → Nat → α)
    (d : α) (h : ¬(t < nT ∧ b < nB)) :
    getEntry ((List.range nT).map (fun t' =>
      (List.range nB).map (fun b' => g t' b'))) t b d = d := by
  rw [getEntry_def, rowAt]
  by_cases h1 : t < nT
  · have h2 : nB ≤ b := by omega
    rw [List.getElem?_map, List.getElem?_range h1]
    simp only [Option.map_some', Option.getD_some]
    have h3 : ((List.range nB).map (fun b' => g t b'))[b]? = none :=
      List.getElem?_eq_none (by simpa using h2)
    rw [h3]
    rfl
  · have h3 : (List.range nT)[t]? = none :=
      List.getElem?_eq_none (by simpa using Nat.le_of_not_lt h1)
    rw [List.getElem?_map, h3]
    rfl

theorem buildPairMat_getEntry (ftm : Mat FiloType) (nT nB t b : Nat)
    (f : FiloType → FiloType → Bool) (h1 : t < nT - 1) (h2 : b < nB) :
    getEntry (buildPairMat ftm nT nB f) t b false =
      f (getEntry ftm t b .ABSENT) (getEntry ftm (t + 1) b .ABSENT) :=
  rangeMapMat_getEntry (nT - 1) nB t b _ false h1 h2

theorem buildPairMat_getEntry_oor (ftm : Mat FiloType) (nT nB t b : Nat)
    (f : FiloType → FiloType → Bool) (h : ¬(t < nT - 1 ∧ b < nB)) :
    getEntry (buildPairMat ftm nT nB f) t b false = false :=
  rangeMapMat_getEntry_oor (nT - 1) nB t b _ false h

theorem masterChangedMat_getEntry (mn : Mat (List Nat)) (nT nB t b : Nat)
    (h1 : t < nT - 1) (h2 : b < nB) :
    getEntry (masterChangedMat mn nT nB) t b false =
      (!(getEntry mn (t + 1) b []).isEmpty &&
        !(getEntry mn t b []).any (fun x => (getEntry mn (t + 1) b []).contains x)) :=
  rangeMapMat_getEntry (nT - 1) nB t b _ false h1 h2

theorem astF_inv (fuel : Nat) (trees : List Tree) (exA exB : Bool)
    (tD fD : ℚ) (res : ASTResult)
    (h : addedSubtractedTransitionedF fuel trees exA exB tD fD = some res) :
    ∃ st, classifyTrees fuel (sortedBranchIDList trees) exA exB tD fD
        (withIdx 0 trees) (astInitState trees) = some st ∧
      res.filoTypes = st.filoTypes ∧
      res.added = maskFalse
        (buildPairMat st.filoTypes trees.length (sortedBranchIDList trees).length addedCell)
        (masterChangedMat st.masterNodes trees.length (sortedBranchIDList trees).length) ∧
      res.subtracted = maskFalse
        (buildPairMat st.filoTypes trees.length (sortedBranchIDList trees).length subtractedCell)
        (masterChangedMat st.masterNodes trees.length (sortedBranchIDList trees).length) ∧
      res.transitioned = buildPairMat st.filoTypes trees.length
        (sortedBranchIDList trees).length transitionedCell ∧
      res.masterChanged = masterChangedMat st.masterNodes trees.length
        (sortedBranchIDList trees).length ∧
      res.masterNodes = st.masterNodes := by
  unfold addedSubtractedTransitionedF at h
  revert h
  cases hc : classifyTrees fuel (sortedBranchIDList trees) exA exB tD fD
      (withIdx 0 trees) (astInitState trees) with
  | none => intro h; cases h
  | some st =>
    intro h
    refine ⟨st, rfl, ?_⟩
    cases h
    exact ⟨rfl, rfl, rfl, rfl, rfl, rfl⟩

theorem ast_inv (trees : List Tree) (exA exB : Bool) (tD fD : ℚ)
    (res : ASTResult)
    (h : addedSubtractedTransitioned trees exA exB tD fD = some res) :
    ∃ st, classifyTrees (defaultFuel trees) (sortedBranchIDList trees) exA exB
        tD fD (withIdx 0 trees) (astInitState trees) = some st ∧
      res.filoTypes = st.filoTypes ∧
      res.added = maskFalse
        (buildPairMat st.filoTypes trees.length (sortedBranchIDList trees).length addedCell)
        (masterChangedMat st.masterNodes trees.length (sortedBranchIDList trees).length) ∧
      res.subtracted = maskFalse
        (buildPairMat st.filoTypes trees.length (sortedBranchIDList trees).length subtractedCell)
        (masterChangedMat st.masterNodes trees.length (sortedBranchIDList trees).length) ∧
      res.transitioned = buildPairMat st.filoTypes trees.length
        (sortedBranchIDList trees).length transitionedCell ∧
      res.masterChanged = masterChangedMat st.masterNodes trees.length
        (sortedBranchIDList trees).length ∧
      res.masterNodes = st.masterNodes :=
  astF_inv (defaultFuel trees) trees exA exB tD fD res h

theorem addedCell_subtractedCell_exclusive (bf af : FiloType) :
    ¬(addedCell bf af = true ∧ subtractedCell bf af = true) := by
  cases bf <;> cases af <;> decide

/-- C1: wherever `masterChanged[t,b]` holds in the returned matrices, both
`added[t,b]` and `subtracted[t,b]` are false. -/
theorem claim_C1 (trees : List Tree) (exA exB : Bool) (tD fD : ℚ)
    (t b : Nat) (res : ASTResult)
    (h : addedSubtractedTransitioned trees exA exB tD fD = some res)
    (hmc : getEntry res.masterChanged t b false = true) :
    getEntry res.added t b false = false ∧
      getEntry res.subtracted t b false = false := by
  obtain ⟨st, _, _, hadd, hsub, _, hmceq, _⟩ := ast_inv trees exA exB tD fD res h
  rw [hmceq] at hmc
  rw [hadd, hsub]
  exact ⟨maskFalse_getEntry_of_mask _ _ t b hmc,
    maskFalse_getEntry_of_mask _ _ t b hmc⟩

unseal Rat.add Rat.sub Rat.mul Rat.inv in
/-- C1 witness: on `exTreesA`, `masterChanged[0,1]` holds and both event
flags at that cell are false. -/
theorem claim_C1_witness :
    getEntry ((addedSubtractedTransitioned exTreesA true true 10 10).getD
        ⟨[], [], [], [], [], []⟩).added 0 1 false = false ∧
    getEntry ((addedSubtractedTransitioned exTreesA true true 10 10).getD
        ⟨[], [], [], [], [], []⟩).subtracted 0 1 false = false :=
  claim_C1 exTreesA true true 10 10 0 1 _ (by decide) (by decide)

/-- C5: `added[t,b]` and `subtracted[t,b]` are never both true in the
returned matrices. -/
theorem claim_C5 (trees : List Tree) (exA exB : Bool) (tD fD : ℚ)
    (t b : Nat) (res : ASTResult)
    (h : addedSubtractedTransitioned trees exA exB tD fD = some res) :
    ¬(getEntry res.added t b false = true ∧
        getEntry res.subtracted t b false = true) := by
  rintro ⟨ha, hs⟩
  obtain ⟨st, _, _, hadd, hsub, _, _, _⟩ := ast_inv trees exA exB tD fD res h
  rw [hadd] at ha
  rw [hsub] at hs
  have ha' := (maskFalse_getEntry_imp _ _ t b ha).1
  have hs' := (maskFalse_getEntry_imp _ _ t b hs).1
  by_cases hin : t < trees.length - 1 ∧ b < (sortedBranchIDList trees).length
  · rw [buildPairMat_getEntry _ _ _ _ _ _ hin.1 hin.2] at ha'
    rw [buildPairMat_getEntry _ _ _ _ _ _ hin.1 hin.2] at hs'
    exact addedCell_subtractedCell_exclusive _ _ ⟨ha', hs'⟩
  · rw [buildPairMat_getEntry_oor _ _ _ _ _ _ hin] at ha'
    exact Bool.false_ne_true ha'

unseal Rat.add Rat.sub Rat.mul Rat.inv in
/-- C5 witness: on `exTreesA` at cell (0,2), added and subtracted are not
both true. -/
theorem claim_C5_witness :
    ¬(getEntry ((addedSubtractedTransitioned exTreesA true true 10 10).getD
          ⟨[], [], [], [], [], []⟩).added 0 2 false = true ∧
      getEntry ((addedSubtractedTransitioned exTreesA true true 10 10).getD
          ⟨[], [], [], [], [], []⟩).subtracted 0 2 false = true) :=
  claim_C5 exTreesA true true 10 10 0 2 _ (by decide)

unseal Rat.add Rat.sub Rat.mul Rat.inv in
/-- C10: the transitioned matrix is exactly the unmasked cell formula (the
masterChanged mask never modifies it), and on `exTreesA` the cell (0,1) has
both `transitioned` and `masterChanged` true. -/
theorem claim_C10 :
    (∀ (trees : List Tree) (exA exB : Bool) (tD fD : ℚ) (t b : Nat)
        (res : ASTResult),
      addedSubtractedTransitioned trees exA exB tD fD = some res →
      t < trees.length - 1 → b < (sortedBranchIDList trees).length →
      getEntry res.transitioned t b false =
        transitionedCell (getEntry res.filoTypes t b .ABSENT)
          (getEntry res.filoTypes (t + 1) b .ABSENT)) ∧
    (∃ res, addedSubtractedTransitioned exTreesA true true 10 10 = some res ∧
      getEntry res.transitioned 0 1 false = true ∧
      getEntry res.masterChanged 0 1 false = true) := by
  constructor
  · intro trees exA exB tD fD t b res h ht hb
    obtain ⟨st, _, hft, _, _, htr, _, _⟩ := ast_inv trees exA exB tD fD res h
    rw [htr, hft, buildPairMat_getEntry _ _ _ _ _ _ ht hb]
  · exact ⟨(addedSubtractedTransitioned exTreesA true true 10 10).getD
      ⟨[], [], [], [], [], []⟩, by decide, by decide, by decide⟩

unseal Rat.add Rat.sub Rat.mul Rat.inv in
/-- C10 witness: the frame part of C10 applied at `exTreesA`, cell (0,1). -/
theorem claim_C10_witness :
    getEntry ((addedSubtractedTransitioned exTreesA true true 10 10).getD
        ⟨[], [], [], [], [], []⟩).transitioned 0 1 false =
      transitionedCell
        (getEntry ((addedSubtractedTransitioned exTreesA true true 10 10).getD
            ⟨[], [], [], [], [], []⟩).filoTypes 0 1 .ABSENT)
        (getEntry ((addedSubtractedTransitioned exTreesA true true 10 10).getD
            ⟨[], [], [], [], [], []⟩).filoTypes 1 1 .ABSENT) :=
  claim_C10.1 exTreesA true true 10 10 0 1 _ (by decide) (by decide) (by decide)

theorem calcChildrenGoB_shape
    (recFn : Branch → Mat EFloat → Option (Mat EFloat))
    (hrec : ∀ c st st', recFn c st = some st' → sameShape st st') :
    ∀ (bs : List Branch) (st st' : Mat EFloat),
      calcChildrenGoB recFn bs st = some st' → sameShape st st' := by
  intro bs
  induction bs with
  | nil =>
    intro st st' h
    simp only [calcChildrenGoB] at h
    cases h
    exact sameShape_refl _
  | cons c rest ih =>
    intro st st' h
    simp only [calcChildrenGoB] at h
    revert h
    cases hc : recFn c st with
    | none => intro h; cases h
    | some st1 =>
      intro h
      exact sameShape_trans (hrec c st st1 hc) (ih st1 st' h)

theorem calcChildrenGo_shape
    (recFn : Branch → Mat EFloat → Option (Mat EFloat))
    (hrec : ∀ c st st', recFn c st = some st' → sameShape st st') :
    ∀ (ps : List Point) (st st' : Mat EFloat),
      calcChildrenGo recFn ps st = some st' → sameShape st st' := by
  intro ps
  induction ps with
  | nil =>
    intro st st' h
    simp only [calcChildrenGo] at h
    cases h
    exact sameShape_refl _
  | cons p rest ih =>
    intro st st' h
    simp only [calcChildrenGo] at h
    revert h
    cases hc : calcChildrenGoB recFn p.children st with
    | none => intro h; cases h
    | some st1 =>
      intro h
      exact sameShape_trans (calcChildrenGoB_shape recFn hrec p.children st st1 hc)
        (ih st1 st' h)

theorem calcFiloLengths_shape (fuel : Nat) :
    ∀ (tree : Tree) (treeIdx : Nat) (exA exB : Bool) (fD : ℚ) (b : Branch)
      (st st' : Mat EFloat),
      calcFiloLengths fuel tree treeIdx exA exB fD b st = some st' →
      sameShape st st' := by
  induction fuel with
  | zero => intro tree treeIdx exA exB fD b st st' h; cases h
  | succ fuel ih =>
    intro tree treeIdx exA exB fD b st st' h
    simp only [calcFiloLengths] at h
    split at h
    · cases h
    · split at h
      · cases h
        exact sameShape_setEntry _ _ _ _
      · split at h
        · cases h
        · cases h
          exact sameShape_setEntry _ _ _ _
        · split at h
          · cases h
          · cases h
            exact sameShape_setEntry _ _ _ _
          · split at h
            · cases h
              exact sameShape_setEntry _ _ _ _
            · rename_i hcgmatch
              revert h
              cases hcg : calcChildrenGo
                  (fun c s => calcFiloLengths fuel tree treeIdx exA exB fD c s)
                  b.points st with
              | none => intro h; cases h
              | some st1 =>
                intro h
                cases h
                refine sameShape_trans ?_ (sameShape_setEntry _ _ _ _)
                exact calcChildrenGo_shape _
                  (fun c s s' hc => ih tree treeIdx exA exB fD c s s' hc)
                  b.points st st1 hcg

theorem calcFiloLengths_step6 (fuel : Nat) (tree : Tree) (treeIdx : Nat)
    (exA exB : Bool) (fD : ℚ) (b : Branch) (st st' : Mat EFloat) (j : Nat)
    (h : calcFiloLengths fuel tree treeIdx exA exB fD b st = some st')
    (hj : tree.branchIndex b = some j)
    (hne : b.points ≠ [])
    (hax : labelGuard exA b "axon" = some false)
    (hbas : labelGuard exB b "basal" = some false)
    (hfilo : (b.isFilo fD).1 = false) :
    ∃ st1, sameShape st st1 ∧
      st' = setEntry st1 treeIdx j (some (trailingFiloLength b fD)) := by
  cases fuel with
  | zero => cases h
  | succ fuel =>
    have hlen : (b.points.length + 1 < 2) = False := by
      have : 0 < b.points.length := List.length_pos.mpr hne
      simp
      omega
    simp only [calcFiloLengths, hj, hlen, hax, hbas, hfilo, if_false,
      Bool.false_eq_true] at h
    revert h
    cases hcg : calcChildrenGo
        (fun c s => calcFiloLengths fuel tree treeIdx exA exB fD c s)
        b.points st with
    | none => intro h; cases h
    | some st1 =>
      intro h
      cases h
      exact ⟨st1,
        calcChildrenGo_shape _
          (fun c s s' hc => calcFiloLengths_shape fuel tree treeIdx exA exB fD c s s' hc)
          b.points st st1 hcg, rfl⟩

/-- C7: a non-filopodium branch with a genuine last branching point whose
trailing segment equals `filoDist` exactly contributes 0; in general the
trailing segment is assigned only when strictly below `filoDist`. -/
theorem claim_C7 (fuel : Nat) (tree : Tree) (treeIdx : Nat) (exA exB : Bool)
    (fD : ℚ) (b : Branch) (st st' : Mat EFloat) (j : Nat)
    (h : calcFiloLengths fuel tree treeIdx exA exB fD b st = some st')
    (hj : tree.branchIndex b = some j)
    (hne : b.points ≠ [])
    (hax : labelGuard exA b "axon" = some false)
    (hbas : labelGuard exB b "basal" = some false)
    (hfilo : (b.isFilo fD).1 = false)
    (hpos : 0 < b.lengthToLastBranch)
    (hrow : treeIdx < st.length)
    (hcol : j < (rowAt st treeIdx).length) :
    getEntry st' treeIdx j none =
      some (if b.totalLength - b.lengthToLastBranch < fD
            then b.totalLength - b.lengthToLastBranch else 0) ∧
    (b.totalLength - b.lengthToLastBranch = fD →
      getEntry st' treeIdx j none = some 0) := by
  obtain ⟨st1, hsh, hset⟩ :=
    calcFiloLengths_step6 fuel tree treeIdx exA exB fD b st st' j h hj hne
      hax hbas hfilo
  have hrow1 : treeIdx < st1.length := by rw [← hsh.1]; exact hrow
  have hcol1 : j < (rowAt st1 treeIdx).length := by
    rw [← hsh.2 treeIdx]; exact hcol
  have hval : getEntry st' treeIdx j none = some (trailingFiloLength b fD) := by
    rw [hset]
    exact getEntry_setEntry_self st1 treeIdx j _ none hrow1 hcol1
  constructor
  · rw [hval, trailingFiloLength, if_pos hpos]
  · intro heq
    rw [hval, trailingFiloLength, if_pos hpos, heq, if_neg (lt_irrefl fD)]

unseal Rat.add Rat.sub Rat.mul Rat.inv in
/-- C7 witness: a branch of total length 15 whose last branching point sits
at length 5, with `filoDist` 10: the trailing segment is exactly 10 and the
assigned contribution is 0. -/
theorem claim_C7_witness :
    getEntry ((calcFiloLengths 3 exTreeC7 0 true true 10 bC7
        (mkMat 1 2 none)).getD []) 0 0 none =
      some (if bC7.totalLength - bC7.lengthToLastBranch < 10
            then bC7.totalLength - bC7.lengthToLastBranch else 0) ∧
    (bC7.totalLength - bC7.lengthToLastBranch = 10 →
      getEntry ((calcFiloLengths 3 exTreeC7 0 true true 10 bC7
          (mkMat 1 2 none)).getD []) 0 0 none = some 0) :=
  claim_C7 3 exTreeC7 0 true true 10 bC7 (mkMat 1 2 none) _ 0 (by decide)
    (by decide) (by simp [bC7, br, Branch.points]) (by decide) (by decide)
    (by decide) (by decide) (by decide) (by decide)

/-- C9: a non-empty, non-excluded, non-filopodium branch whose
`lengthToLastBranch` is 0 contributes 0 regardless of its total length. -/
theorem claim_C9 (fuel : Nat) (tree : Tree) (treeIdx : Nat) (exA exB : Bool)
    (fD : ℚ) (b : Branch) (st st' : Mat EFloat) (j : Nat)
    (h : calcFiloLengths fuel tree treeIdx exA exB fD b st = some st')
    (hj : tree.branchIndex b = some j)
    (hne : b.points ≠ [])
    (hax : labelGuard exA b "axon" = some false)
    (hbas : labelGuard exB b "basal" = some false)
    (hfilo : (b.isFilo fD).1 = false)
    (hzero : b.lengthToLastBranch = 0)
    (hrow : treeIdx < st.length)
    (hcol : j < (rowAt st treeIdx).length) :
    getEntry st' treeIdx j none = some 0 := by
  obtain ⟨st1, hsh, hset⟩ :=
    calcFiloLengths_step6 fuel tree treeIdx exA exB fD b st st' j h hj hne
      hax hbas hfilo
  have hrow1 : treeIdx < st1.length := by rw [← hsh.1]; exact hrow
  have hcol1 : j < (rowAt st1 treeIdx).length := by
    rw [← hsh.2 treeIdx]; exact hcol
  rw [hset, getEntry_setEntry_self st1 treeIdx j _ none hrow1 hcol1]
  have hnotpos : ¬(0 < b.lengthToLastBranch) := by rw [hzero]; exact lt_irrefl 0
  have hnotlt : ¬(fD + 1 < fD) := by linarith
  rw [trailingFiloLength, if_neg hnotpos, if_neg hnotlt]

unseal Rat.add Rat.sub Rat.mul Rat.inv in
/-- C9 witness: a childless branch of total length 20 (not a filopodium at
`filoDist` 10) has `lengthToLastBranch` 0 and is assigned contribution 0. -/
theorem claim_C9_witness :
    getEntry ((calcFiloLengths 3 exTreeC9 0 true true 10 bC9
        (mkMat 1 1 none)).getD []) 0 0 none = some 0 :=
  claim_C9 3 exTreeC9 0 true true 10 bC9 (mkMat 1 1 none) _ 0 (by decide)
    (by decide) (by simp [bC9, br, Branch.points]) (by decide) (by decide)
    (by decide) (by decide) (by decide) (by decide)

theorem rowsFrozen_refl (treeIdx : Nat) (st : CState) :
    rowsFrozen treeIdx st st := fun _ _ => ⟨rfl, rfl⟩

theorem rowsFrozen_trans {treeIdx : Nat} {s1 s2 s3 : CState}
    (h1 : rowsFrozen treeIdx s1 s2) (h2 : rowsFrozen treeIdx s2 s3) :
    rowsFrozen treeIdx s1 s3 := fun r hr =>
  ⟨((h2 r hr).1).trans ((h1 r hr).1), ((h2 r hr).2).trans ((h1 r hr).2)⟩

theorem setEntry_getElem?_rne (m : Mat α) (i j r : Nat) (v : α)
    (hr : r ≠ i) : (setEntry m i j v)[r]? = m[r]? := by
  rw [setEntry, getElem?_set']
  rw [if_neg (fun h => hr h.1.symm)]

theorem rowsFrozen_setFT (treeIdx j : Nat) (st : CState) (v : FiloType) :
    rowsFrozen treeIdx st (setFT st treeIdx j v) := fun r hr =>
  ⟨setEntry_getElem?_rne _ _ _ _ _ hr, rfl⟩

theorem rowsFrozen_setMN (treeIdx j : Nat) (st : CState) (v : List Nat) :
    rowsFrozen treeIdx st (setMN st treeIdx j v) := fun r hr =>
  ⟨rfl, setEntry_getElem?_rne _ _ _ _ _ hr⟩

theorem downgradePoint_rowsFrozen (tree : Tree) (treeIdx : Nat) :
    ∀ (bs : List Branch) (st st' : CState),
      downgradePoint tree treeIdx bs st = some st' →
      rowsFrozen treeIdx st st' := by
  intro bs
  induction bs with
  | nil =>
    intro st st' h
    cases h
    exact rowsFrozen_refl _ _
  | cons c rest ih =>
    intro st st' h
    simp only [downgradePoint] at h
    split at h
    · cases h
    · refine rowsFrozen_trans ?_ (ih _ st' h)
      split
      · exact rowsFrozen_setFT _ _ _ _
      · exact rowsFrozen_refl _ _

theorem downgradePass_rowsFrozen (tree : Tree) (treeIdx : Nat) :
    ∀ (ps : List Point) (st st' : CState),
      downgradePass tree treeIdx ps st = some st' →
      rowsFrozen treeIdx st st' := by
  intro ps
  induction ps with
  | nil =>
    intro st st' h
    cases h
    exact rowsFrozen_refl _ _
  | cons p rest ih =>
    intro st st' h
    simp only [downgradePass] at h
    split at h
    · cases h
    · rename_i st1 hdp
      exact rowsFrozen_trans (downgradePoint_rowsFrozen tree treeIdx p.children _ _ hdp)
        (ih _ st' h)

theorem processChildrenGo_rowsFrozen
    (recFn : Nat → CState → Option CState)
    (hrec : ∀ bIdx s s', recFn bIdx s = some s' → rowsFrozen treeIdx s s')
    (branchIDList : List Nat) (branchIdx : Nat) (branch : Branch)
    (totalLength : ℚ) (cumulativeLengths : List ℚ)
    (terminalDist filoDist : ℚ) (pointIdx : Nat) (point : Point) :
    ∀ (cs : List Branch) (fi : Bool) (st : CState) (st' : CState) (fi' : Bool),
      processChildrenGo recFn branchIDList treeIdx branchIdx branch
        totalLength cumulativeLengths terminalDist filoDist pointIdx point
        cs fi st = some (st', fi') →
      rowsFrozen treeIdx st st' := by
  intro cs
  induction cs with
  | nil =>
    intro fi st st' fi' h
    cases h
    exact rowsFrozen_refl _ _
  | cons c rest ih =>
    intro fi st st' fi' h
    simp only [processChildrenGo] at h
    split at h
    · exact ih _ _ _ _ h
    · split at h
      · exact ih _ _ _ _ h
      · split at h
        · refine rowsFrozen_trans ?_ (ih _ _ _ _ h)
          split
          · exact rowsFrozen_trans
              (rowsFrozen_setFT _ _ _ _)
              (rowsFrozen_trans (rowsFrozen_setFT _ _ _ _) (rowsFrozen_setMN _ _ _ _))
          · exact rowsFrozen_setFT _ _ _ _
        · split at h
          · cases h
          · rename_i st1 hrf
            exact rowsFrozen_trans (hrec _ _ _ hrf) (ih _ _ _ _ h)

theorem walkAfterChildren_rowsFrozen (tree : Tree) (treeIdx : Nat)
    (branch : Branch) (pointIdx : Nat) (st1 : CState) (fi1 : Bool)
    (st2 : CState)
    (h : walkAfterChildren tree treeIdx branch pointIdx st1 fi1 = some st2) :
    rowsFrozen treeIdx st1 st2 := by
  simp only [walkAfterChildren] at h
  split at h
  · exact downgradePass_rowsFrozen tree treeIdx _ _ _ h
  · cases h
    exact rowsFrozen_refl _ _

theorem walkPointsGo_rowsFrozen
    (recFn : Nat → CState → Option CState)
    (hrec : ∀ bIdx s s', recFn bIdx s = some s' → rowsFrozen treeIdx s s')
    (branchIDList : List Nat) (tree : Tree) (branchIdx : Nat)
    (branch : Branch) (totalLength : ℚ) (cumulativeLengths : List ℚ)
    (terminalDist filoDist : ℚ) :
    ∀ (pairs : List (Nat × Point)) (fi : Bool) (st : CState)
      (st' : CState) (fi' : Bool),
      walkPointsGo recFn branchIDList tree treeIdx branchIdx branch
        totalLength cumulativeLengths terminalDist filoDist pairs fi st =
        some (st', fi') →
      rowsFrozen treeIdx st st' := by
  intro pairs
  induction pairs with
  | nil =>
    intro fi st st' fi' h
    cases h
    exact rowsFrozen_refl _ _
  | cons ip rest ih =>
    intro fi st st' fi' h
    obtain ⟨pointIdx, point⟩ := ip
    simp only [walkPointsGo] at h
    split at h
    · exact ih _ _ _ _ h
    · split at h
      · cases h
      · rename_i st1 fi1 hpcg
        split at h
        · cases h
        · rename_i st2 hwac
          exact rowsFrozen_trans
            (processChildrenGo_rowsFrozen recFn hrec _ _ _ _ _ _ _ _ _
              _ _ _ _ _ hpcg)
            (rowsFrozen_trans
              (walkAfterChildren_rowsFrozen _ _ _ _ _ _ _ hwac)
              (ih _ _ _ _ h))

theorem finishBranch_rowsFrozen (tree : Tree) (treeIdx branchIdx : Nat)
    (branch : Branch) (totalLength totalLengthToLastBranch filoDist : ℚ)
    (fi : Bool) (st st' : CState)
    (h : finishBranch tree treeIdx branchIdx branch totalLength
      totalLengthToLastBranch filoDist fi st = some st') :
    rowsFrozen treeIdx st st' := by
  simp only [finishBranch] at h
  split at h
  · split at h
    · cases h
      exact rowsFrozen_setFT _ _ _ _
    · split at h
      · cases h
      · cases h
        exact rowsFrozen_trans (rowsFrozen_setFT _ _ _ _) (rowsFrozen_setMN _ _ _ _)
  · split at h
    · split at h
      · cases h
      · split at h
        · cases h
        · cases h
          exact rowsFrozen_trans (rowsFrozen_setFT _ _ _ _)
            (rowsFrozen_setMN _ _ _ _)
    · cases h
      exact rowsFrozen_trans (rowsFrozen_setFT _ _ _ _) (rowsFrozen_setMN _ _ _ _)

theorem recursiveFiloTypes_rowsFrozen (fuel : Nat) :
    ∀ (branchIDList : List Nat) (tree : Tree) (treeIdx branchIdx : Nat)
      (exA exB : Bool) (tD fD : ℚ) (st st' : CState),
      recursiveFiloTypes fuel branchIDList tree treeIdx branchIdx exA exB
        tD fD st = some st' →
      rowsFrozen treeIdx st st' := by
  induction fuel with
  | zero => intro _ _ _ _ _ _ _ _ _ _ h; cases h
  | succ fuel ih =>
    intro branchIDList tree treeIdx branchIdx exA exB tD fD st st' h
    simp only [recursiveFiloTypes] at h
    split at h
    · cases h
      exact rowsFrozen_setFT _ _ _ _
    · split at h
      · cases h
        exact rowsFrozen_setFT _ _ _ _
      · split at h
        · cases h
          exact rowsFrozen_setFT _ _ _ _
        · split at h <;>
            first
              | cases h
              | exact rowsFrozen_trans
                  (walkPointsGo_rowsFrozen _
                    (fun bIdx s s' hc => ih branchIDList tree treeIdx bIdx
                      exA exB tD fD s s' hc) _ _ _ _ _ _ _ _ _ _ _ _ _
                    (by assumption))
                  (finishBranch_rowsFrozen _ _ _ _ _ _ _ _ _ _ h)

theorem classifyRootChildren_rowsFrozen (fuel : Nat)
    (branchIDList : List Nat) (tree : Tree) (treeIdx : Nat)
    (exA exB : Bool) (tD fD : ℚ) :
    ∀ (bs : List Branch) (st st' : CState),
      classifyRootChildren fuel branchIDList tree treeIdx exA exB tD fD
        bs st = some st' →
      rowsFrozen treeIdx st st' := by
  intro bs
  induction bs with
  | nil =>
    intro st st' h
    cases h
    exact rowsFrozen_refl _ _
  | cons b rest ih =>
    intro st st' h
    simp only [classifyRootChildren] at h
    split at h
    · cases h
    · split at h
      · cases h
      · rename_i branchIdx _ st1 hrf
        exact rowsFrozen_trans
          (recursiveFiloTypes_rowsFrozen fuel _ _ _ _ _ _ _ _ _ _ hrf)
          (ih _ st' h)

theorem classifyTrees_skip_row (fuel : Nat) (branchIDList : List Nat)
    (exA exB : Bool) (tD fD : ℚ) (k : Nat) :
    ∀ (pairs : List (Nat × Tree)) (st st' : CState),
      (∀ p ∈ pairs, p.1 = k →
        (p.2.branches.length = 0 ∨ p.2.rootPoint = none)) →
      classifyTrees fuel branchIDList exA exB tD fD pairs st = some st' →
      st'.filoTypes[k]? = st.filoTypes[k]? := by
  intro pairs
  induction pairs with
  | nil =>
    intro st st' _ h
    cases h
    rfl
  | cons p rest ih =>
    intro st st' hskip h
    obtain ⟨idx, tree⟩ := p
    simp only [classifyTrees] at h
    split at h
    · rename_i hbranches
      split at h
      · rename_i root hroot
        split at h
        · cases h
        · rename_i st1 hcl
          have hk : idx ≠ k := by
            intro hik
            rcases hskip (idx, tree) (List.mem_cons_self _ _) hik with h1 | h1
            · have h2 : tree.branches.length = 0 := h1
              omega
            · have h2 : tree.rootPoint = none := h1
              rw [h2] at hroot
              cases hroot
          have hfr := classifyRootChildren_rowsFrozen fuel branchIDList tree
            idx exA exB tD fD root.children st st1 hcl
          rw [ih st1 st' (fun q hq => hskip q (List.mem_cons_of_mem _ hq)) h]
          exact (hfr k (fun hkk => hk hkk.symm)).1
      · exact ih st st'
          (fun q hq => hskip q (List.mem_cons_of_mem _ hq)) h
    · exact ih st st'
        (fun q hq => hskip q (List.mem_cons_of_mem _ hq)) h

theorem withIdx_pair_at (n k : Nat) : ∀ (l : List α) (x : α),
    l[k]? = some x → (n + k, x) ∈ withIdx n l := by
  intro l
  induction l generalizing n k with
  | nil => intro x h; cases h
  | cons a t ih =>
    intro x h
    cases k with
    | zero =>
      rw [List.getElem?_cons_zero] at h
      cases h
      simp [withIdx]
    | succ k' =>
      rw [List.getElem?_cons_succ] at h
      have hmem := ih (n + 1) k' x h
      have harith : n + 1 + k' = n + (k' + 1) := by omega
      rw [harith] at hmem
      exact List.mem_cons_of_mem _ hmem

theorem motilityLoop_none (fuel : Nat) (exA exB : Bool) (fD : ℚ) :
    ∀ (pairs : List (Nat × Tree)) (st : Mat EFloat),
      (∃ p ∈ pairs, p.2.rootPoint = none) →
      motilityLoop fuel exA exB fD pairs st = none := by
  intro pairs
  induction pairs with
  | nil =>
    intro st h
    rcases h with ⟨p, hp, _⟩
    cases hp
  | cons q rest ih =>
    intro st h
    obtain ⟨idx, tree⟩ := q
    simp only [motilityLoop]
    cases hroot : tree.rootPoint with
    | none => rfl
    | some root =>
      rcases h with ⟨p, hp, hpnone⟩
      rcases List.mem_cons.mp hp with heq | hmem
      · have h1 : tree.rootPoint = none := by rw [heq] at hpnone; exact hpnone
        rw [h1] at hroot
        cases hroot
      · cases hcg : calcChildrenGoB
            (fun c s => calcFiloLengths fuel tree idx exA exB fD c s)
            root.children st with
        | none => simp only [hcg]
        | some st1 =>
          simp only [hcg, ih st1 ⟨p, hmem, hpnone⟩]

theorem motilityF_none_of_rootless (fuel : Nat) (trees : List Tree)
    (exA exB iAS : Bool) (tD fD : ℚ) (tk : Tree)
    (hmem : tk ∈ trees) (hroot : tk.rootPoint = none) :
    motilityF fuel trees exA exB iAS tD fD = none := by
  have hex : ∃ p ∈ withIdx 0 trees, p.2.rootPoint = none := by
    obtain ⟨n, hn⟩ := List.get_of_mem hmem
    have hn' : trees[n.1]? = some tk := by
      rw [List.getElem?_eq_getElem n.2]
      exact congrArg some hn
    exact ⟨(0 + n.1, tk), withIdx_pair_at 0 n.1 trees tk hn', hroot⟩
  simp only [motilityF]
  split
  · rfl
  · split
    · rfl
    · rename_i lastTree hlast
      have hm := motilityLoop_none fuel exA exB fD (withIdx 0 trees)
        (mkMat trees.length lastTree.branches.length (none : EFloat)) hex
      simp only [hm]

unseal Rat.add Rat.sub Rat.mul Rat.inv in
/-- C8 counterexample: on a sequence whose first snapshot is an entirely
empty tree (no root point), `motility` raises (returns `none`, modelling
the AttributeError of `tree.rootPoint.children`) instead of completing. -/
theorem claim_C8_counterexample :
    motility exTreesD true true false 10 10 = none := by decide

/-- C8 (amended): `addedSubtractedTransitioned` skips a rootless snapshot
and leaves its whole row at the default ABSENT values, but `motility`
raises an error (returns `none`) whenever any snapshot has no root point. -/
theorem claim_C8 :
    (∀ (trees : List Tree) (exA exB : Bool) (tD fD : ℚ) (res : ASTResult)
        (k : Nat) (tk : Tree),
      addedSubtractedTransitioned trees exA exB tD fD = some res →
      trees[k]? = some tk → tk.rootPoint = none →
      res.filoTypes[k]? =
        some (List.replicate (sortedBranchIDList trees).length .ABSENT)) ∧
    (∀ (trees : List Tree) (exA exB iAS : Bool) (tD fD : ℚ) (tk : Tree),
      tk ∈ trees → tk.rootPoint = none →
      motility trees exA exB iAS tD fD = none) := by
  constructor
  · intro trees exA exB tD fD res k tk h hk hroot
    obtain ⟨st, hcl, hft, _⟩ := ast_inv trees exA exB tD fD res h
    have hskip : ∀ p ∈ withIdx 0 trees, p.1 = k →
        (p.2.branches.length = 0 ∨ p.2.rootPoint = none) := by
      intro p hp hpk
      obtain ⟨_, _, hpeq⟩ := withIdx_mem 0 trees p hp
      rw [Nat.sub_zero, hpk, hk] at hpeq
      cases hpeq
      exact Or.inr hroot
    have hrow := classifyTrees_skip_row (defaultFuel trees)
      (sortedBranchIDList trees) exA exB tD fD k (withIdx 0 trees)
      (astInitState trees) st hskip hcl
    have hklt : k < trees.length :=
      (List.getElem?_eq_some.mp hk).1
    rw [hft, hrow]
    simp only [astInitState, mkMat]
    rw [List.getElem?_eq_getElem (by simpa using hklt)]
    simp
  · intro trees exA exB iAS tD fD tk hmem hroot
    exact motilityF_none_of_rootless (defaultFuel trees) trees exA exB iAS
      tD fD tk hmem hroot

unseal Rat.add Rat.sub Rat.mul Rat.inv in
/-- C8 witness: the amended claim applied to `exTreesD`, whose first
snapshot is the empty tree. -/
theorem claim_C8_witness :
    ((addedSubtractedTransitioned exTreesD true true 10 10).getD
        ⟨[], [], [], [], [], []⟩).filoTypes[0]? =
      some (List.replicate (sortedBranchIDList exTreesD).length .ABSENT) ∧
    motility exTreesD true true false 10 10 = none :=
  ⟨claim_C8.1 exTreesD true true 10 10 _ 0 exEmptyTree (by decide)
      (by simp [exTreesD]) rfl,
   claim_C8.2 exTreesD true true false 10 10 exEmptyTree
      (List.mem_cons_self _ _) rfl⟩

theorem filoB_eq_role_list (ft : FiloType) :
    filoB ft = decide (ft = .TERMINAL ∨ ft = .INTERSTITIAL ∨
      ft = .BRANCH_WITH_TERMINAL ∨ ft = .BRANCH_WITH_INTERSTITIAL) := by
  cases ft <;> rfl

unseal Rat.add Rat.sub Rat.mul Rat.inv in
/-- C3 counterexample: on `exTreesC` the returned normalized-by-filo-count
motility at transition 0 is 1, while the per-transition raw sum divided by
the strict TERMINAL/INTERSTITIAL count of the starting snapshot would be 2:
the code also counts the BRANCH_WITH_TERMINAL trunk in the denominator. -/
theorem claim_C3_counterexample :
    (motility exTreesC true true false 10 10).isSome = true ∧
    ((motility exTreesC true true false 10 10).getD
        (⟨[], [], [], []⟩, [])).1.rawNFilo.getD 0 none = some 1 ∧
    qDivE
      (eNanSum (((motility exTreesC true true false 10 10).getD
        (⟨[], [], [], []⟩, [])).1.raw.getD 0 []))
      (specStrictFiloCount
        (((addedSubtractedTransitioned exTreesC true true 10 10).getD
          ⟨[], [], [], [], [], []⟩).filoTypes.getD 0 [])) = some 2 ∧
    ¬((some (1 : ℚ) : EFloat) = some (2 : ℚ)) := by
  refine ⟨by decide, by decide, by decide, by decide⟩

/-- C3 (amended): the normalized-by-filo-count aggregate divides each
transition's raw-motility sum by the count of branches whose role at the
starting snapshot lies strictly between ABSENT and BRANCH_ONLY, i.e.
TERMINAL, INTERSTITIAL, BRANCH_WITH_TERMINAL or BRANCH_WITH_INTERSTITIAL
(the numpy mask `(filoTypes > ABSENT) & (filoTypes < BRANCH_ONLY)`). -/
theorem claim_C3 :
    (∀ (trees : List Tree) (exA exB iAS : Bool) (tD fD : ℚ)
        (r : MotilityResult × Mat EFloat),
      motility trees exA exB iAS tD fD = some r →
      ∃ astr, addedSubtractedTransitionedF (defaultFuel trees) trees exA exB
          tD fD = some astr ∧
        r.1.rawNFilo = List.zipWith (fun s n => qDivE s (n : ℚ))
          (r.1.raw.map eNanSum)
          ((astr.filoTypes.map nFiloRow).dropLast)) ∧
    (∀ row : List FiloType, nFiloRow row = (row.filter (fun ft =>
      decide (ft = FiloType.TERMINAL ∨ ft = FiloType.INTERSTITIAL ∨
        ft = FiloType.BRANCH_WITH_TERMINAL ∨
        ft = FiloType.BRANCH_WITH_INTERSTITIAL))).length) := by
  constructor
  · intro trees exA exB iAS tD fD r h
    simp only [motility, motilityF] at h
    split at h
    · cases h
    · rename_i astr hast
      split at h
      · cases h
      · rename_i lastTree hlast
        split at h <;>
          first
            | (cases h; exact ⟨astr, hast, rfl⟩)
            | cases h
  · intro row
    rw [nFiloRow]
    congr 1
    apply List.filter_congr
    intro ft _
    rw [filoB_eq_role_list]

unseal Rat.add Rat.sub Rat.mul Rat.inv in
/-- C3 witness: the amended claim applied at `exTreesC` and at the role row
of its starting snapshot. -/
theorem claim_C3_witness :
    (∃ astr, addedSubtractedTransitionedF (defaultFuel exTreesC) exTreesC
        true true 10 10 = some astr ∧
      ((motility exTreesC true true false 10 10).getD
          (⟨[], [], [], []⟩, [])).1.rawNFilo =
        List.zipWith (fun s n => qDivE s (n : ℚ))
          (((motility exTreesC true true false 10 10).getD
            (⟨[], [], [], []⟩, [])).1.raw.map eNanSum)
          ((astr.filoTypes.map nFiloRow).dropLast)) ∧
    nFiloRow [FiloType.BRANCH_WITH_TERMINAL, FiloType.TERMINAL] =
      ([FiloType.BRANCH_WITH_TERMINAL, FiloType.TERMINAL].filter (fun ft =>
        decide (ft = FiloType.TERMINAL ∨ ft = FiloType.INTERSTITIAL ∨
          ft = FiloType.BRANCH_WITH_TERMINAL ∨
          ft = FiloType.BRANCH_WITH_INTERSTITIAL))).length :=
  ⟨claim_C3.1 exTreesC true true false 10 10 _ (by decide),
   claim_C3.2 [FiloType.BRANCH_WITH_TERMINAL, FiloType.TERMINAL]⟩

theorem calcFiloLengths_filoWrite (fuel : Nat) (tree : Tree) (treeIdx : Nat)
    (exA exB : Bool) (fD : ℚ) (b : Branch) (st st' : Mat EFloat) (j : Nat)
    (h : calcFiloLengths fuel tree treeIdx exA exB fD b st = some st')
    (hj : tree.branchIndex b = some j)
    (hne : b.points ≠ [])
    (hax : labelGuard exA b "axon" = some false)
    (hbas : labelGuard exB b "basal" = some false)
    (hfilo : (b.isFilo fD).1 = true)
    (hrow : treeIdx < st.length)
    (hcol : j < (rowAt st treeIdx).length) :
    getEntry st' treeIdx j none = some (b.isFilo fD).2 := by
  cases fuel with
  | zero => cases h
  | succ fuel =>
    have hlen : (b.points.length + 1 < 2) = False := by
      have : 0 < b.points.length := List.length_pos.mpr hne
      simp
      omega
    simp only [calcFiloLengths, hj, hlen, hax, hbas, hfilo, if_true,
      if_false] at h
    cases h
    exact getEntry_setEntry_self st treeIdx j _ none hrow hcol

theorem motilityLoop_shape (fuel : Nat) (exA exB : Bool) (fD : ℚ) :
    ∀ (pairs : List (Nat × Tree)) (st : Mat EFloat) (tdbls : List ℚ)
      (fl' : Mat EFloat),
      motilityLoop fuel exA exB fD pairs st = some (tdbls, fl') →
      sameShape st fl' := by
  intro pairs
  induction pairs with
  | nil =>
    intro st tdbls fl' h
    cases h
    exact sameShape_refl _
  | cons q rest ih =>
    intro st tdbls fl' h
    obtain ⟨idx, tree⟩ := q
    simp only [motilityLoop] at h
    split at h
    · cases h
    · split at h
      · cases h
      · rename_i st1 hcg
        split at h <;>
          first
            | (cases h
               exact sameShape_trans
                 (calcChildrenGoB_shape _
                   (fun c s s' hc =>
                     calcFiloLengths_shape fuel tree idx exA exB fD c s s' hc)
                   _ st st1 hcg)
                 (ih st1 _ _ (by assumption)))
            | cases h

unseal Rat.add Rat.sub Rat.mul Rat.inv in
/-- C2 counterexample: on `exTreesB`, whose second snapshot stores its
branches in the order [id 2, id 1], branch id 1 (a filopodium of length 3,
global column 0 in the sorted id list [1, 2]) has its snapshot-1 value
stored at column 1, while column 0 holds branch id 2's length 5: the
filopodium-length matrix is not indexed by the global branch-identity
columns. -/
theorem claim_C2_counterexample :
    (motility exTreesB true true false 10 10).isSome = true ∧
    ((motility exTreesB true true false 10 10).getD
        (⟨[], [], [], []⟩, [])).2 = [[some 3, some 5], [some 5, some 3]] ∧
    sortedBranchIDList exTreesB = [1, 2] ∧
    Branch.isFilo (br 1 [pt 3 []]) 10 = (true, 3) ∧
    ¬(getEntry ((motility exTreesB true true false 10 10).getD
        (⟨[], [], [], []⟩, [])).2 1 0 none = some 3) := by
  refine ⟨by decide, by decide, by decide, by decide, by decide⟩

unseal Rat.add Rat.sub Rat.mul Rat.inv in
/-- C2 (amended): the `addedSubtractedTransitioned` matrices use the global
branch-identity index, but `motility`'s filopodium-length matrix has one
column per branch of the LAST snapshot's stored branch list, and each
branch's value is written at the branch's position in its own snapshot's
stored branch list (its `indexInParent`), which need not coincide with the
global index: on `exTreesB`, branch id 1's value 3 sits at column 1 of row 1
although its global column is 0. -/
theorem claim_C2 :
    (∀ (trees : List Tree) (exA exB iAS : Bool) (tD fD : ℚ)
        (r : MotilityResult × Mat EFloat) (lastTree : Tree),
      motility trees exA exB iAS tD fD = some r →
      trees.getLast? = some lastTree →
      r.2.length = trees.length ∧
      ∀ t, t < trees.length →
        (rowAt r.2 t).length = lastTree.branches.length) ∧
    (∀ (fuel : Nat) (tree : Tree) (treeIdx : Nat) (exA exB : Bool) (fD : ℚ)
        (b : Branch) (st st' : Mat EFloat) (j : Nat),
      calcFiloLengths fuel tree treeIdx exA exB fD b st = some st' →
      tree.branchIndex b = some j →
      b.points ≠ [] →
      labelGuard exA b "axon" = some false →
      labelGuard exB b "basal" = some false →
      (b.isFilo fD).1 = true →
      treeIdx < st.length → j < (rowAt st treeIdx).length →
      getEntry st' treeIdx j none = some (b.isFilo fD).2) ∧
    (Tree.branchIndex exB1 (br 1 [pt 3 []]) = some 1 ∧
      List.indexOf 1 (sortedBranchIDList exTreesB) = 0 ∧
      getEntry ((motility exTreesB true true false 10 10).getD
        (⟨[], [], [], []⟩, [])).2 1 1 none = some 3) := by
  refine ⟨?_, ?_, ?_, ?_, ?_⟩
  · intro trees exA exB iAS tD fD r lastTree h hlast
    simp only [motility, motilityF] at h
    split at h
    · cases h
    · split at h
      · rename_i heq
        rw [hlast] at heq
        cases heq
      · rename_i lastTree' heq
        rw [hlast] at heq
        cases heq
        revert h
        cases hloop : motilityLoop (defaultFuel trees) exA exB fD
            (withIdx 0 trees)
            (mkMat trees.length lastTree.branches.length none) with
        | none => intro h; cases h
        | some pr =>
          obtain ⟨tdbls, fl⟩ := pr
          intro h
          cases h
          have hsh := motilityLoop_shape (defaultFuel trees) exA exB fD
            (withIdx 0 trees) _ tdbls fl hloop
          constructor
          · rw [← hsh.1]
            simp [mkMat]
          · intro t ht
            rw [← hsh.2 t, mkMat_rowAt _ _ _ _ ht]
            simp
  · exact calcFiloLengths_filoWrite
  · decide
  · decide
  · exact (by decide :
      getEntry ((motility exTreesB true true false 10 10).getD
        (⟨[], [], [], []⟩, [])).2 1 1 none = some 3)

unseal Rat.add Rat.sub Rat.mul Rat.inv in
/-- C2 witness: the amended claim applied at `exTreesB` (width part) and at
the filopodium branch id 1 inside snapshot 1 (storage-location part). -/
theorem claim_C2_witness :
    (((motility exTreesB true true false 10 10).getD
        (⟨[], [], [], []⟩, [])).2.length = exTreesB.length ∧
      ∀ t, t < exTreesB.length →
        (rowAt ((motility exTreesB true true false 10 10).getD
          (⟨[], [], [], []⟩, [])).2 t).length = exB1.branches.length) ∧
    getEntry ((calcFiloLengths 3 exB1 1 true true 10 (br 1 [pt 3 []])
        (mkMat 2 2 none)).getD []) 1 1 none =
      some (Branch.isFilo (br 1 [pt 3 []]) 10).2 :=
  ⟨claim_C2.1 exTreesB true true false 10 10 _ exB1 (by decide) (by rfl),
   claim_C2.2.1 3 exB1 1 true true 10 (br 1 [pt 3 []]) (mkMat 2 2 none) _ 1
     (by decide) (by decide) (by simp [br, pt, Branch.points]) (by decide)
     (by decide) (by decide) (by decide) (by decide)⟩

theorem getFT_setMN (st : CState) (i j r c : Nat) (v : List Nat) :
    getFT (setMN st i j v) r c = getFT st r c := rfl

theorem getMN_setFT (st : CState) (i j r c : Nat) (v : FiloType) :
    getMN (setFT st i j v) r c = getMN st r c := rfl

theorem getFT_setFT_cne (st : CState) (i j r c : Nat) (v : FiloType)
    (h : c ≠ j) : getFT (setFT st i j v) r c = getFT st r c :=
  getEntry_setEntry_cne _ _ _ _ _ _ _ h

theorem getMN_setMN_cne (st : CState) (i j r c : Nat) (v : List Nat)
    (h : c ≠ j) : getMN (setMN st i j v) r c = getMN st r c :=
  getEntry_setEntry_cne _ _ _ _ _ _ _ h

theorem getFT_setFT_self (st : CState) (i j : Nat) (v : FiloType)
    (hi : i < st.filoTypes.length) (hj : j < (rowAt st.filoTypes i).length) :
    getFT (setFT st i j v) i j = v :=
  getEntry_setEntry_self _ _ _ _ _ hi hj

theorem getMN_setMN_self (st : CState) (i j : Nat) (v : List Nat)
    (hi : i < st.masterNodes.length)
    (hj : j < (rowAt st.masterNodes i).length) :
    getMN (setMN st i j v) i j = v :=
  getEntry_setEntry_self _ _ _ _ _ hi hj

theorem cShape_setFT (st : CState) (i j : Nat) (v : FiloType) :
    cShape st (setFT st i j v) :=
  ⟨sameShape_setEntry _ _ _ _, sameShape_refl _⟩

theorem cShape_setMN (st : CState) (i j : Nat) (v : List Nat) :
    cShape st (setMN st i j v) :=
  ⟨sameShape_refl _, sameShape_setEntry _ _ _ _⟩

theorem mem_of_getLast?_eq_some {l : List α} {a : α}
    (h : l.getLast? = some a) : a ∈ l := by
  obtain ⟨hne, heq⟩ := List.mem_getLast?_eq_getLast (Option.mem_def.mpr h)
  rw [heq]
  exact List.getLast_mem hne

theorem pcg_append (recFn : Nat → CState → Option CState)
    (branchIDList : List Nat) (treeIdx branchIdx : Nat) (branch : Branch)
    (totalLength : ℚ) (cumulativeLengths : List ℚ)
    (terminalDist filoDist : ℚ) (pointIdx : Nat) (point : Point) :
    ∀ (xs ys : List Branch) (fi : Bool) (st : CState),
      processChildrenGo recFn branchIDList treeIdx branchIdx branch
        totalLength cumulativeLengths terminalDist filoDist pointIdx point
        (xs ++ ys) fi st =
      Option.bind
        (processChildrenGo recFn branchIDList treeIdx branchIdx branch
          totalLength cumulativeLengths terminalDist filoDist pointIdx point
          xs fi st)
        (fun p => processChildrenGo recFn branchIDList treeIdx branchIdx
          branch totalLength cumulativeLengths terminalDist filoDist
          pointIdx point ys p.2 p.1) := by
  intro xs
  induction xs with
  | nil =>
    intro ys fi st
    simp only [List.nil_append, processChildrenGo, Option.bind]
  | cons x rest ih =>
    intro ys fi st
    simp only [List.cons_append, processChildrenGo]
    split
    · exact ih ys fi st
    · split
      · exact ih ys fi st
      · split
        · exact ih ys fi _
        · split
          · rfl
          · exact ih ys true _

theorem pcg_allFilo (recFn : Nat → CState → Option CState)
    (branchIDList : List Nat) (treeIdx branchIdx : Nat) (branch : Branch)
    (totalLength : ℚ) (cumulativeLengths : List ℚ)
    (terminalDist filoDist : ℚ) (pointIdx : Nat) (point : Point) :
    ∀ (cs : List Branch) (fi : Bool) (st : CState),
      (∀ c ∈ cs, FiloOnly branchIDList filoDist c) →
      ∃ st',
        processChildrenGo recFn branchIDList treeIdx branchIdx branch
          totalLength cumulativeLengths terminalDist filoDist pointIdx point
          cs fi st = some (st', fi) ∧
        cShape st st' ∧
        (∀ j, (∀ c ∈ cs, 1 ≤ c.points.length → c.id ∈ branchIDList →
            branchIDList.indexOf c.id ≠ j) →
          getFT st' treeIdx j = getFT st treeIdx j ∧
            getMN st' treeIdx j = getMN st treeIdx j) := by
  intro cs
  induction cs with
  | nil =>
    intro fi st _
    exact ⟨st, rfl, cShape_refl st, fun j _ => ⟨rfl, rfl⟩⟩
  | cons c rest ih =>
    intro fi st hfo
    have hrest : ∀ d ∈ rest, FiloOnly branchIDList filoDist d :=
      fun d hd => hfo d (List.mem_cons_of_mem _ hd)
    by_cases hlen : c.points.length < 1
    · obtain ⟨st', heq, hsh, hfr⟩ := ih fi st hrest
      refine ⟨st', ?_, hsh, ?_⟩
      · simp only [processChildrenGo, if_pos hlen]
        exact heq
      · intro j hj
        exact hfr j (fun d hd => hj d (List.mem_cons_of_mem _ hd))
    · by_cases hmem : c.id ∈ branchIDList
      · have hcont : branchIDList.contains c.id = true := List.elem_iff.mpr hmem
        have hfilo : (c.isFilo filoDist).1 = true :=
          hfo c (List.mem_cons_self _ _) (by omega) hmem
        set jc := branchIDList.indexOf c.id with hjc
        set v1 : FiloType :=
          if decide (totalLength - cumulativeLengths.getD pointIdx 0 <
              terminalDist) = true
          then .TERMINAL else .INTERSTITIAL with hv1
        set st2 :=
          if point.children.length = 1 ∧ pointIdx = branch.points.length - 1
          then setMN (setFT (setFT st treeIdx jc v1) treeIdx jc .BRANCH_ONLY)
            treeIdx jc [branchIdx]
          else setFT st treeIdx jc v1 with hst2
        have hshape2 : cShape st st2 := by
          rw [hst2]
          split
          · exact cShape_trans (cShape_setFT _ _ _ _)
              (cShape_trans (cShape_setFT _ _ _ _) (cShape_setMN _ _ _ _))
          · exact cShape_setFT _ _ _ _
        have hfr2 : ∀ j, jc ≠ j →
            getFT st2 treeIdx j = getFT st treeIdx j ∧
              getMN st2 treeIdx j = getMN st treeIdx j := by
          intro j hjne
          have hne' : j ≠ jc := fun h => hjne h.symm
          rw [hst2]
          split
          · rw [getFT_setMN, getFT_setFT_cne _ _ _ _ _ _ hne',
              getFT_setFT_cne _ _ _ _ _ _ hne',
              getMN_setMN_cne _ _ _ _ _ _ hne', getMN_setFT, getMN_setFT]
            exact ⟨rfl, rfl⟩
          · rw [getFT_setFT_cne _ _ _ _ _ _ hne', getMN_setFT]
            exact ⟨rfl, rfl⟩
        obtain ⟨st', heq, hsh, hfr⟩ := ih fi st2 hrest
        refine ⟨st', ?_, cShape_trans hshape2 hsh, ?_⟩
        · simp only [processChildrenGo, hlen, hcont, hfilo, Bool.not_true,
            Bool.false_eq_true, if_false, if_true]
          rw [← hjc, ← hv1, ← hst2]
          exact heq
        · intro j hj
          have hjc_ne : jc ≠ j :=
            hj c (List.mem_cons_self _ _) (by omega) hmem
          obtain ⟨hf1, hm1⟩ := hfr2 j hjc_ne
          obtain ⟨hf2, hm2⟩ := hfr j (fun d hd => hj d (List.mem_cons_of_mem _ hd))
          exact ⟨hf2.trans hf1, hm2.trans hm1⟩
      · have hcont : branchIDList.contains c.id = false := by
          rw [← Bool.not_eq_true]
          intro hc
          exact hmem (List.elem_iff.mp hc)
        obtain ⟨st', heq, hsh, hfr⟩ := ih fi st hrest
        refine ⟨st', ?_, hsh, ?_⟩
        · simp only [processChildrenGo, hlen, hcont, Bool.not_false,
            Bool.false_eq_true, if_false, if_true]
          exact heq
        · intro j hj
          exact hfr j (fun d hd => hj d (List.mem_cons_of_mem _ hd))

theorem pcg_value (recFn : Nat → CState → Option CState)
    (branchIDList : List Nat) (treeIdx branchIdx : Nat) (branch : Branch)
    (totalLength : ℚ) (cumulativeLengths : List ℚ)
    (terminalDist filoDist : ℚ) (pointIdx : Nat) (point : Point)
    (cpre cpost : List Branch) (c : Branch) (fi : Bool) (st : CState)
    (hpre : ∀ d ∈ cpre, FiloOnly branchIDList filoDist d)
    (hpost : ∀ d ∈ cpost, FiloOnly branchIDList filoDist d)
    (hc1 : 1 ≤ c.points.length) (hc2 : c.id ∈ branchIDList)
    (hcfilo : (c.isFilo filoDist).1 = true)
    (hpostne : ∀ d ∈ cpost, 1 ≤ d.points.length → d.id ∈ branchIDList →
      branchIDList.indexOf d.id ≠ branchIDList.indexOf c.id)
    (hrowf : treeIdx < st.filoTypes.length)
    (hcolf : branchIDList.indexOf c.id < (rowAt st.filoTypes treeIdx).length)
    (hrowm : treeIdx < st.masterNodes.length)
    (hcolm : branchIDList.indexOf c.id <
      (rowAt st.masterNodes treeIdx).length) :
    ∃ st',
      processChildrenGo recFn branchIDList treeIdx branchIdx branch
        totalLength cumulativeLengths terminalDist filoDist pointIdx point
        (cpre ++ c :: cpost) fi st = some (st', fi) ∧
      cShape st st' ∧
      ((point.children.length = 1 ∧ pointIdx = branch.points.length - 1) →
        getFT st' treeIdx (branchIDList.indexOf c.id) = .BRANCH_ONLY ∧
        getMN st' treeIdx (branchIDList.indexOf c.id) = [branchIdx]) ∧
      (¬(point.children.length = 1 ∧ pointIdx = branch.points.length - 1) →
        getFT st' treeIdx (branchIDList.indexOf c.id) =
          (if totalLength - cumulativeLengths.getD pointIdx 0 < terminalDist
           then .TERMINAL else .INTERSTITIAL)) := by
  obtain ⟨st1, heq1, hsh1, _⟩ := pcg_allFilo recFn branchIDList treeIdx
    branchIdx branch totalLength cumulativeLengths terminalDist filoDist
    pointIdx point cpre fi st hpre
  set jc := branchIDList.indexOf c.id with hjc
  have hrowf1 : treeIdx < st1.filoTypes.length := by
    rw [← hsh1.1.1]; exact hrowf
  have hcolf1 : jc < (rowAt st1.filoTypes treeIdx).length := by
    rw [← hsh1.1.2 treeIdx]; exact hcolf
  have hrowm1 : treeIdx < st1.masterNodes.length := by
    rw [← hsh1.2.1]; exact hrowm
  have hcolm1 : jc < (rowAt st1.masterNodes treeIdx).length := by
    rw [← hsh1.2.2 treeIdx]; exact hcolm
  have hcont : branchIDList.contains c.id = true := List.elem_iff.mpr hc2
  have hlen : ¬(c.points.length < 1) := by omega
  set v1 : FiloType :=
    if decide (totalLength - cumulativeLengths.getD pointIdx 0 <
        terminalDist) = true
    then .TERMINAL else .INTERSTITIAL with hv1
  set st2 :=
    if point.children.length = 1 ∧ pointIdx = branch.points.length - 1
    then setMN (setFT (setFT st1 treeIdx jc v1) treeIdx jc .BRANCH_ONLY)
      treeIdx jc [branchIdx]
    else setFT st1 treeIdx jc v1 with hst2
  have hshape2 : cShape st1 st2 := by
    rw [hst2]
    split
    · exact cShape_trans (cShape_setFT _ _ _ _)
        (cShape_trans (cShape_setFT _ _ _ _) (cShape_setMN _ _ _ _))
    · exact cShape_setFT _ _ _ _
  have hval2ovr :
      (point.children.length = 1 ∧ pointIdx = branch.points.length - 1) →
        getFT st2 treeIdx jc = .BRANCH_ONLY ∧
          getMN st2 treeIdx jc = [branchIdx] := by
    intro hovr
    rw [hst2, if_pos hovr]
    constructor
    · rw [getFT_setMN]
      have hr : treeIdx < (setFT st1 treeIdx jc v1).filoTypes.length := by
        rw [← (cShape_setFT st1 treeIdx jc v1).1.1]; exact hrowf1
      have hc : jc < (rowAt (setFT st1 treeIdx jc v1).filoTypes treeIdx).length := by
        rw [← (cShape_setFT st1 treeIdx jc v1).1.2 treeIdx]; exact hcolf1
      exact getFT_setFT_self _ _ _ _ hr hc
    · have hr : treeIdx <
          (setFT (setFT st1 treeIdx jc v1) treeIdx jc
            FiloType.BRANCH_ONLY).masterNodes.length := hrowm1
      have hc : jc < (rowAt (setFT (setFT st1 treeIdx jc v1) treeIdx jc
          FiloType.BRANCH_ONLY).masterNodes treeIdx).length := hcolm1
      exact getMN_setMN_self _ _ _ _ hr hc
  have hval2flat :
      ¬(point.children.length = 1 ∧ pointIdx = branch.points.length - 1) →
        getFT st2 treeIdx jc = v1 := by
    intro hovr
    rw [hst2, if_neg hovr]
    exact getFT_setFT_self _ _ _ _ hrowf1 hcolf1
  obtain ⟨st', heq3, hsh3, hfr3⟩ := pcg_allFilo recFn branchIDList treeIdx
    branchIdx branch totalLength cumulativeLengths terminalDist filoDist
    pointIdx point cpost fi st2 hpost
  have hkeep : getFT st' treeIdx jc = getFT st2 treeIdx jc ∧
      getMN st' treeIdx jc = getMN st2 treeIdx jc :=
    hfr3 jc (fun d hd h1 h2 => hpostne d hd h1 h2)
  have hfull :
      processChildrenGo recFn branchIDList treeIdx branchIdx branch
        totalLength cumulativeLengths terminalDist filoDist pointIdx point
        (cpre ++ c :: cpost) fi st = some (st', fi) := by
    rw [pcg_append]
    rw [heq1]
    simp only [Option.some_bind]
    simp only [processChildrenGo, hlen, hcont, hcfilo, Bool.not_true,
      Bool.false_eq_true, if_false, if_true]
    rw [← hjc, ← hv1, ← hst2]
    exact heq3
  have hvfinal : v1 =
      (if totalLength - cumulativeLengths.getD pointIdx 0 < terminalDist
       then FiloType.TERMINAL else FiloType.INTERSTITIAL) := by
    rw [hv1]
    by_cases hd : totalLength - cumulativeLengths.getD pointIdx 0 < terminalDist
    · rw [if_pos hd, if_pos (by simpa using hd)]
    · rw [if_neg hd, if_neg (by simpa using hd)]
  refine ⟨st', hfull, cShape_trans hsh1 (cShape_trans hshape2 hsh3), ?_, ?_⟩
  · intro hovr
    obtain ⟨hf2, hm2⟩ := hval2ovr hovr
    exact ⟨hkeep.1.trans hf2, hkeep.2.trans hm2⟩
  · intro hovr
    rw [hkeep.1, hval2flat hovr, hvfinal]

theorem wpg_append (recFn : Nat → CState → Option CState)
    (branchIDList : List Nat) (tree : Tree) (treeIdx branchIdx : Nat)
    (branch : Branch) (totalLength : ℚ) (cumulativeLengths : List ℚ)
    (terminalDist filoDist : ℚ) :
    ∀ (A B : List (Nat × Point)) (fi : Bool) (st : CState),
      walkPointsGo recFn branchIDList tree treeIdx branchIdx branch
        totalLength cumulativeLengths terminalDist filoDist (A ++ B) fi st =
      Option.bind
        (walkPointsGo recFn branchIDList tree treeIdx branchIdx branch
          totalLength cumulativeLengths terminalDist filoDist A fi st)
        (fun p => walkPointsGo recFn branchIDList tree treeIdx branchIdx
          branch totalLength cumulativeLengths terminalDist filoDist
          B p.2 p.1) := by
  intro A
  induction A with
  | nil =>
    intro B fi st
    simp only [List.nil_append, walkPointsGo, Option.some_bind]
  | cons ip rest ih =>
    intro B fi st
    obtain ⟨i, pnt⟩ := ip
    simp only [List.cons_append, walkPointsGo]
    split
    · exact ih B fi st
    · cases hpcg : processChildrenGo recFn branchIDList treeIdx branchIdx
          branch totalLength cumulativeLengths terminalDist filoDist
          i pnt pnt.children false st with
      | none => rfl
      | some pr =>
        obtain ⟨st1, fi1⟩ := pr
        show (match walkAfterChildren tree treeIdx branch i st1 fi1 with
              | none => none
              | some st2 =>
                walkPointsGo recFn branchIDList tree treeIdx branchIdx branch
                  totalLength cumulativeLengths terminalDist filoDist
                  (rest ++ B) fi1 st2) =
          Option.bind
            (match walkAfterChildren tree treeIdx branch i st1 fi1 with
              | none => none
              | some st2 =>
                walkPointsGo recFn branchIDList tree treeIdx branchIdx branch
                  totalLength cumulativeLengths terminalDist filoDist
                  rest fi1 st2)
            (fun p => walkPointsGo recFn branchIDList tree treeIdx branchIdx
              branch totalLength cumulativeLengths terminalDist filoDist
              B p.2 p.1)
        cases hwac : walkAfterChildren tree treeIdx branch i st1 fi1 with
        | none => rfl
        | some st2 => exact ih B fi1 st2

theorem wac_false (tree : Tree) (treeIdx : Nat) (branch : Branch)
    (pointIdx : Nat) (st1 : CState) :
    walkAfterChildren tree treeIdx branch pointIdx st1 false = some st1 := rfl

theorem wpg_allFilo (recFn : Nat → CState → Option CState)
    (branchIDList : List Nat) (tree : Tree) (treeIdx branchIdx : Nat)
    (branch : Branch) (totalLength : ℚ) (cumulativeLengths : List ℚ)
    (terminalDist filoDist : ℚ) :
    ∀ (pairs : List (Nat × Point)) (fi : Bool) (st : CState),
      (∀ ip ∈ pairs, ∀ c ∈ (Prod.snd ip).children,
        FiloOnly branchIDList filoDist c) →
      ∃ st' fi',
        walkPointsGo recFn branchIDList tree treeIdx branchIdx branch
          totalLength cumulativeLengths terminalDist filoDist pairs fi st =
          some (st', fi') ∧
        cShape st st' ∧
        (∀ j, (∀ ip ∈ pairs, ∀ c ∈ (Prod.snd ip).children,
            1 ≤ c.points.length → c.id ∈ branchIDList →
            branchIDList.indexOf c.id ≠ j) →
          getFT st' treeIdx j = getFT st treeIdx j ∧
            getMN st' treeIdx j = getMN st treeIdx j) := by
  intro pairs
  induction pairs with
  | nil =>
    intro fi st _
    exact ⟨st, fi, rfl, cShape_refl st, fun j _ => ⟨rfl, rfl⟩⟩
  | cons ip rest ih =>
    intro fi st hfo
    obtain ⟨i, pnt⟩ := ip
    have hrest : ∀ q ∈ rest, ∀ c ∈ (Prod.snd q).children,
        FiloOnly branchIDList filoDist c :=
      fun q hq => hfo q (List.mem_cons_of_mem _ hq)
    have hhead : ∀ c ∈ pnt.children, FiloOnly branchIDList filoDist c :=
      hfo (i, pnt) (List.mem_cons_self _ _)
    by_cases hnz : pnt.children.length = 0
    · obtain ⟨st', fi', heq, hsh, hfr⟩ := ih fi st hrest
      refine ⟨st', fi', ?_, hsh, ?_⟩
      · simp only [walkPointsGo, hnz, if_true]
        exact heq
      · intro j hj
        exact hfr j (fun q hq => hj q (List.mem_cons_of_mem _ hq))
    · obtain ⟨st1, heqp, hshp, hfrp⟩ := pcg_allFilo recFn branchIDList
        treeIdx branchIdx branch totalLength cumulativeLengths terminalDist
        filoDist i pnt pnt.children false st hhead
      obtain ⟨st', fi', heq, hsh, hfr⟩ := ih false st1 hrest
      refine ⟨st', fi', ?_, cShape_trans hshp hsh, ?_⟩
      · have hnz' : (pnt.children.length = 0) = False := eq_false hnz
        simp only [walkPointsGo, hnz', if_false]
        rw [heqp]
        exact heq
      · intro j hj
        obtain ⟨hf1, hm1⟩ := hfrp j
          (fun c hc => hj (i, pnt) (List.mem_cons_self _ _) c hc)
        obtain ⟨hf2, hm2⟩ := hfr j (fun q hq => hj q (List.mem_cons_of_mem _ hq))
        exact ⟨hf2.trans hf1, hm2.trans hm1⟩

theorem wpg_value (recFn : Nat → CState → Option CState)
    (branchIDList : List Nat) (tree : Tree) (treeIdx branchIdx : Nat)
    (branch : Branch) (totalLength : ℚ) (cumulativeLengths : List ℚ)
    (terminalDist filoDist : ℚ) (A B : List (Nat × Point)) (i : Nat)
    (pnt : Point) (cpre cpost : List Branch) (c : Branch) (fi : Bool)
    (st : CState)
    (hA : ∀ ip ∈ A, ∀ d ∈ (Prod.snd ip).children,
      FiloOnly branchIDList filoDist d)
    (hB : ∀ ip ∈ B, ∀ d ∈ (Prod.snd ip).children,
      FiloOnly branchIDList filoDist d)
    (hcs : pnt.children = cpre ++ c :: cpost)
    (hhead : ∀ d ∈ pnt.children, FiloOnly branchIDList filoDist d)
    (hc1 : 1 ≤ c.points.length) (hc2 : c.id ∈ branchIDList)
    (hcfilo : (c.isFilo filoDist).1 = true)
    (hpostne : ∀ d ∈ cpost, 1 ≤ d.points.length → d.id ∈ branchIDList →
      branchIDList.indexOf d.id ≠ branchIDList.indexOf c.id)
    (hBne : ∀ ip ∈ B, ∀ d ∈ (Prod.snd ip).children, 1 ≤ d.points.length →
      d.id ∈ branchIDList →
      branchIDList.indexOf d.id ≠ branchIDList.indexOf c.id)
    (hrowf : treeIdx < st.filoTypes.length)
    (hcolf : branchIDList.indexOf c.id < (rowAt st.filoTypes treeIdx).length)
    (hrowm : treeIdx < st.masterNodes.length)
    (hcolm : branchIDList.indexOf c.id <
      (rowAt st.masterNodes treeIdx).length) :
    ∃ st' fi',
      walkPointsGo recFn branchIDList tree treeIdx branchIdx branch
        totalLength cumulativeLengths terminalDist filoDist
        (A ++ (i, pnt) :: B) fi st = some (st', fi') ∧
      ((pnt.children.length = 1 ∧ i = branch.points.length - 1) →
        getFT st' treeIdx (branchIDList.indexOf c.id) = .BRANCH_ONLY ∧
        getMN st' treeIdx (branchIDList.indexOf c.id) = [branchIdx]) ∧
      (¬(pnt.children.length = 1 ∧ i = branch.points.length - 1) →
        getFT st' treeIdx (branchIDList.indexOf c.id) =
          (if totalLength - cumulativeLengths.getD i 0 < terminalDist
           then .TERMINAL else .INTERSTITIAL)) := by
  obtain ⟨stA, fiA, heqA, hshA, _⟩ := wpg_allFilo recFn branchIDList tree
    treeIdx branchIdx branch totalLength cumulativeLengths terminalDist
    filoDist A fi st hA
  set jc := branchIDList.indexOf c.id with hjc
  have hrowfA : treeIdx < stA.filoTypes.length := by
    rw [← hshA.1.1]; exact hrowf
  have hcolfA : jc < (rowAt stA.filoTypes treeIdx).length := by
    rw [← hshA.1.2 treeIdx]; exact hcolf
  have hrowmA : treeIdx < stA.masterNodes.length := by
    rw [← hshA.2.1]; exact hrowm
  have hcolmA : jc < (rowAt stA.masterNodes treeIdx).length := by
    rw [← hshA.2.2 treeIdx]; exact hcolm
  have hpre : ∀ d ∈ cpre, FiloOnly branchIDList filoDist d := by
    intro d hd
    exact hhead d (by rw [hcs]; exact List.mem_append_left _ hd)
  have hpost : ∀ d ∈ cpost, FiloOnly branchIDList filoDist d := by
    intro d hd
    exact hhead d (by
      rw [hcs]
      exact List.mem_append_right _ (List.mem_cons_of_mem _ hd))
  obtain ⟨st2, heq2, hsh2, hovr2, hflat2⟩ := pcg_value recFn branchIDList
    treeIdx branchIdx branch totalLength cumulativeLengths terminalDist
    filoDist i pnt cpre cpost c false stA hpre hpost hc1 hc2 hcfilo hpostne
    hrowfA hcolfA hrowmA hcolmA
  obtain ⟨st', fi', heqB, _, hfrB⟩ := wpg_allFilo recFn branchIDList tree
    treeIdx branchIdx branch totalLength cumulativeLengths terminalDist
    filoDist B false st2 hB
  have hkeep := hfrB jc (fun q hq d hd h1 h2 => hBne q hq d hd h1 h2)
  have hnz : ¬(pnt.children.length = 0) := by
    rw [hcs]
    simp
  have hfull :
      walkPointsGo recFn branchIDList tree treeIdx branchIdx branch
        totalLength cumulativeLengths terminalDist filoDist
        (A ++ (i, pnt) :: B) fi st = some (st', fi') := by
    rw [wpg_append]
    rw [heqA]
    simp only [Option.some_bind]
    have hnz' : (pnt.children.length = 0) = False := eq_false hnz
    simp only [walkPointsGo, hnz', if_false]
    rw [show processChildrenGo recFn branchIDList treeIdx branchIdx branch
        totalLength cumulativeLengths terminalDist filoDist i pnt
        pnt.children false stA = some (st2, false) from hcs ▸ heq2]
    exact heqB
  refine ⟨st', fi', hfull, ?_, ?_⟩
  · intro hovr
    obtain ⟨hf2, hm2⟩ := hovr2 hovr
    exact ⟨hkeep.1.trans hf2, hkeep.2.trans hm2⟩
  · intro hflat
    rw [hkeep.1, hflat2 hflat]

theorem branchIdxList_some (tree : Tree) :
    ∀ (ds : List Branch), (∀ d ∈ ds, (tree.branchIndex d).isSome = true) →
    ∃ l, branchIdxList tree ds = some l := by
  intro ds
  induction ds with
  | nil => intro _; exact ⟨[], rfl⟩
  | cons d rest ih =>
    intro h
    obtain ⟨i, hi⟩ := Option.isSome_iff_exists.mp
      (h d (List.mem_cons_self _ _))
    obtain ⟨l', hl'⟩ := ih (fun e he => h e (List.mem_cons_of_mem _ he))
    exact ⟨i :: l', by simp only [branchIdxList, hi, hl']⟩

theorem finishBranch_frame (tree : Tree) (treeIdx branchIdx : Nat)
    (branch : Branch) (tL tllb fD : ℚ) (fi : Bool) (st : CState)
    (hne : branch.points ≠ [])
    (hIdx : ∀ p ∈ branch.points, ∀ d ∈ p.children,
      (tree.branchIndex d).isSome = true) :
    ∃ st',
      finishBranch tree treeIdx branchIdx branch tL tllb fD fi st =
        some st' ∧
      ∀ j, j ≠ branchIdx →
        getFT st' treeIdx j = getFT st treeIdx j ∧
          getMN st' treeIdx j = getMN st treeIdx j := by
  by_cases h1 : 0 < tL - tllb ∧ tL - tllb < fD
  · cases hlpc : lastPointWithChildren branch.points with
    | none =>
      refine ⟨setFT st treeIdx branchIdx
        (if fi then .BRANCH_WITH_INTERSTITIAL else .BRANCH_WITH_TERMINAL),
        ?_, ?_⟩
      · simp only [finishBranch, if_pos h1, hlpc]
      · intro j hj
        exact ⟨getFT_setFT_cne _ _ _ _ _ _ hj, getMN_setFT _ _ _ _ _ _⟩
    | some p =>
      have hp : p ∈ branch.points := by
        have := List.mem_of_find?_eq_some hlpc
        exact List.mem_reverse.mp this
      obtain ⟨idxs, hidxs⟩ := branchIdxList_some tree p.children (hIdx p hp)
      refine ⟨setMN (setFT st treeIdx branchIdx
        (if fi then .BRANCH_WITH_INTERSTITIAL else .BRANCH_WITH_TERMINAL))
        treeIdx branchIdx idxs, ?_, ?_⟩
      · simp only [finishBranch, if_pos h1, hlpc, hidxs]
      · intro j hj
        refine ⟨?_, ?_⟩
        · rw [getFT_setMN, getFT_setFT_cne _ _ _ _ _ _ hj]
        · rw [getMN_setMN_cne _ _ _ _ _ _ hj, getMN_setFT]
  · by_cases h2 : tL - tllb = 0
    · have hg : branch.points.getLast? = some (branch.points.getLast hne) :=
        List.getLast?_eq_getLast _ hne
      have hlmem : branch.points.getLast hne ∈ branch.points :=
        List.getLast_mem hne
      obtain ⟨idxs, hidxs⟩ := branchIdxList_some tree
        (branch.points.getLast hne).children (hIdx _ hlmem)
      refine ⟨setMN (setFT st treeIdx branchIdx .BRANCH_ONLY) treeIdx
        branchIdx idxs, ?_, ?_⟩
      · simp only [finishBranch, if_neg h1, if_pos h2, hg, hidxs]
      · intro j hj
        refine ⟨?_, ?_⟩
        · rw [getFT_setMN, getFT_setFT_cne _ _ _ _ _ _ hj]
        · rw [getMN_setMN_cne _ _ _ _ _ _ hj, getMN_setFT]
    · refine ⟨setMN (setFT st treeIdx branchIdx .BRANCH_ONLY) treeIdx
        branchIdx [branchIdx], ?_, ?_⟩
      · simp only [finishBranch, if_neg h1, if_neg h2]
      · intro j hj
        refine ⟨?_, ?_⟩
        · rw [getFT_setMN, getFT_setFT_cne _ _ _ _ _ _ hj]
        · rw [getMN_setMN_cne _ _ _ _ _ _ hj, getMN_setFT]

theorem recursiveFiloTypes_filoChild (fuel : Nat) (branchIDList : List Nat)
    (tree : Tree) (treeIdx parentIdx : Nat) (exA exB : Bool) (tD fD : ℚ)
    (st : CState) (branch : Branch) (P1 P2 : List Point) (pnt : Point)
    (cpre cpost : List Branch) (c : Branch)
    (hlook : tree.getBranchByID (branchIDList.getD parentIdx 0) = some branch)
    (hsplit : branch.points = P1 ++ pnt :: P2)
    (hcs : pnt.children = cpre ++ c :: cpost)
    (hax : (exA && branch.isAxon) = false)
    (hbas : (exB && branch.isBasal) = false)
    (hallfilo : ∀ p ∈ branch.points, ∀ d ∈ p.children,
      FiloOnly branchIDList fD d)
    (hc1 : 1 ≤ c.points.length) (hc2 : c.id ∈ branchIDList)
    (hpostne : ∀ d ∈ cpost, d.id ∈ branchIDList → d.id ≠ c.id)
    (hP2ne : ∀ p ∈ P2, ∀ d ∈ p.children, d.id ∈ branchIDList → d.id ≠ c.id)
    (hpar : branchIDList.indexOf c.id ≠ parentIdx)
    (hIdxAll : ∀ p ∈ branch.points, ∀ d ∈ p.children,
      (tree.branchIndex d).isSome = true)
    (hrowf : treeIdx < st.filoTypes.length)
    (hcolf : branchIDList.indexOf c.id < (rowAt st.filoTypes treeIdx).length)
    (hrowm : treeIdx < st.masterNodes.length)
    (hcolm : branchIDList.indexOf c.id <
      (rowAt st.masterNodes treeIdx).length) :
    ∃ st'',
      recursiveFiloTypes (fuel + 1) branchIDList tree treeIdx parentIdx
        exA exB tD fD st = some st'' ∧
      ((pnt.children.length = 1 ∧ P1.length = branch.points.length - 1) →
        getFT st'' treeIdx (branchIDList.indexOf c.id) = .BRANCH_ONLY ∧
        getMN st'' treeIdx (branchIDList.indexOf c.id) = [parentIdx]) ∧
      (¬(pnt.children.length = 1 ∧ P1.length = branch.points.length - 1) →
        getFT st'' treeIdx (branchIDList.indexOf c.id) =
          (if branch.totalLength -
              branch.cumulativeLengths.getD P1.length 0 < tD
           then .TERMINAL else .INTERSTITIAL)) := by
  have hpntmem : pnt ∈ branch.points := by
    rw [hsplit]
    exact List.mem_append_right _ (List.mem_cons_self _ _)
  have hcmem : c ∈ pnt.children := by
    rw [hcs]
    exact List.mem_append_right _ (List.mem_cons_self _ _)
  have hcfilo : (c.isFilo fD).1 = true :=
    hallfilo pnt hpntmem c hcmem hc1 hc2
  have hsplitIdx : withIdx 0 branch.points =
      withIdx 0 P1 ++ (P1.length, pnt) :: withIdx (P1.length + 1) P2 := by
    rw [hsplit, withIdx_append, Nat.zero_add]
    rfl
  have hA : ∀ ip ∈ withIdx 0 P1, ∀ d ∈ (Prod.snd ip).children,
      FiloOnly branchIDList fD d := by
    intro ip hip d hd
    obtain ⟨hm, _, _⟩ := withIdx_mem 0 P1 ip hip
    exact hallfilo ip.2 (by rw [hsplit]; exact List.mem_append_left _ hm) d hd
  have hB : ∀ ip ∈ withIdx (P1.length + 1) P2, ∀ d ∈ (Prod.snd ip).children,
      FiloOnly branchIDList fD d := by
    intro ip hip d hd
    obtain ⟨hm, _, _⟩ := withIdx_mem (P1.length + 1) P2 ip hip
    exact hallfilo ip.2
      (by rw [hsplit]
          exact List.mem_append_right _ (List.mem_cons_of_mem _ hm)) d hd
  have hhead : ∀ d ∈ pnt.children, FiloOnly branchIDList fD d :=
    fun d hd => hallfilo pnt hpntmem d hd
  have hpostne' : ∀ d ∈ cpost, 1 ≤ d.points.length → d.id ∈ branchIDList →
      branchIDList.indexOf d.id ≠ branchIDList.indexOf c.id := by
    intro d hd _ hdbl heq
    exact hpostne d hd hdbl ((List.indexOf_inj hdbl hc2).mp heq)
  have hBne : ∀ ip ∈ withIdx (P1.length + 1) P2,
      ∀ d ∈ (Prod.snd ip).children, 1 ≤ d.points.length →
      d.id ∈ branchIDList →
      branchIDList.indexOf d.id ≠ branchIDList.indexOf c.id := by
    intro ip hip d hd _ hdbl heq
    obtain ⟨hm, _, _⟩ := withIdx_mem (P1.length + 1) P2 ip hip
    exact hP2ne ip.2 hm d hd hdbl ((List.indexOf_inj hdbl hc2).mp heq)
  obtain ⟨st', fi', hwpg, hovrV, hflatV⟩ := wpg_value
    (fun bIdx s => recursiveFiloTypes fuel branchIDList tree treeIdx bIdx
      exA exB tD fD s)
    branchIDList tree treeIdx parentIdx branch branch.totalLength
    branch.cumulativeLengths tD fD (withIdx 0 P1)
    (withIdx (P1.length + 1) P2) P1.length pnt cpre cpost c false st
    hA hB hcs hhead hc1 hc2 hcfilo hpostne' hBne hrowf hcolf hrowm hcolm
  have hne : branch.points ≠ [] := by
    rw [hsplit]
    simp
  obtain ⟨st'', hfin, hframe⟩ := finishBranch_frame tree treeIdx parentIdx
    branch branch.totalLength branch.lengthToLastBranch fD fi' st' hne
    hIdxAll
  have hemp : branch.isEmpty = false := by
    simp only [Branch.isEmpty, hsplit]
    cases P1 <;> rfl
  have hch : branch.hasChildren = true := by
    simp only [Branch.hasChildren]
    apply List.any_eq_true.mpr
    refine ⟨pnt, hpntmem, ?_⟩
    rw [hcs]
    simp
  have heqmain :
      recursiveFiloTypes (fuel + 1) branchIDList tree treeIdx parentIdx
        exA exB tD fD st = some st'' := by
    simp only [recursiveFiloTypes, hlook, hemp, hax, hbas, hch,
      Bool.or_false, Bool.false_or, Bool.or_self, Bool.not_true,
      Bool.false_and, Bool.false_eq_true, if_false]
    rw [hsplitIdx, hwpg]
    exact hfin
  obtain ⟨hftEq, hmnEq⟩ := hframe (branchIDList.indexOf c.id) hpar
  refine ⟨st'', heqmain, ?_, ?_⟩
  · intro hovr
    obtain ⟨hf, hm⟩ := hovrV hovr
    exact ⟨hftEq.trans hf, hmnEq.trans hm⟩
  · intro hflat
    rw [hftEq, hflatV hflat]

/-- C4: a filopodium child, not the only child at the parent's last point
and with no downgrade possible (every sibling anywhere on the parent is a
filopodium), is assigned TERMINAL when the path distance from its
attachment point to the parent branch's end is below `terminalDist`, and
INTERSTITIAL exactly when that distance is at least `terminalDist`. -/
theorem claim_C4 (fuel : Nat) (branchIDList : List Nat) (tree : Tree)
    (treeIdx parentIdx : Nat) (exA exB : Bool) (tD fD : ℚ) (st : CState)
    (branch : Branch) (P1 P2 : List Point) (pnt : Point)
    (cpre cpost : List Branch) (c : Branch)
    (hlook : tree.getBranchByID (branchIDList.getD parentIdx 0) = some branch)
    (hsplit : branch.points = P1 ++ pnt :: P2)
    (hcs : pnt.children = cpre ++ c :: cpost)
    (hax : (exA && branch.isAxon) = false)
    (hbas : (exB && branch.isBasal) = false)
    (hallfilo : ∀ p ∈ branch.points, ∀ d ∈ p.children,
      FiloOnly branchIDList fD d)
    (hc1 : 1 ≤ c.points.length) (hc2 : c.id ∈ branchIDList)
    (hpostne : ∀ d ∈ cpost, d.id ∈ branchIDList → d.id ≠ c.id)
    (hP2ne : ∀ p ∈ P2, ∀ d ∈ p.children, d.id ∈ branchIDList → d.id ≠ c.id)
    (hpar : branchIDList.indexOf c.id ≠ parentIdx)
    (hIdxAll : ∀ p ∈ branch.points, ∀ d ∈ p.children,
      (tree.branchIndex d).isSome = true)
    (hrowf : treeIdx < st.filoTypes.length)
    (hcolf : branchIDList.indexOf c.id < (rowAt st.filoTypes treeIdx).length)
    (hrowm : treeIdx < st.masterNodes.length)
    (hcolm : branchIDList.indexOf c.id <
      (rowAt st.masterNodes treeIdx).length)
    (hovr : ¬(pnt.children.length = 1 ∧
      P1.length = branch.points.length - 1)) :
    ∃ st'',
      recursiveFiloTypes (fuel + 1) branchIDList tree treeIdx parentIdx
        exA exB tD fD st = some st'' ∧
      (branch.totalLength - branch.cumulativeLengths.getD P1.length 0 < tD →
        getFT st'' treeIdx (branchIDList.indexOf c.id) = .TERMINAL) ∧
      (getFT st'' treeIdx (branchIDList.indexOf c.id) = .INTERSTITIAL ↔
        tD ≤ branch.totalLength -
          branch.cumulativeLengths.getD P1.length 0) := by
  obtain ⟨st'', heq, _, hflat⟩ := recursiveFiloTypes_filoChild fuel
    branchIDList tree treeIdx parentIdx exA exB tD fD st branch P1 P2 pnt
    cpre cpost c hlook hsplit hcs hax hbas hallfilo hc1 hc2 hpostne hP2ne
    hpar hIdxAll hrowf hcolf hrowm hcolm
  have hval := hflat hovr
  refine ⟨st'', heq, ?_, ?_⟩
  · intro hd
    rw [hval, if_pos hd]
  · by_cases hd : branch.totalLength -
        branch.cumulativeLengths.getD P1.length 0 < tD
    · rw [hval, if_pos hd]
      constructor
      · intro hcontra
        cases hcontra
      · intro hge
        exact absurd hd (not_lt.mpr hge)
    · rw [hval, if_neg hd]
      simp only [true_iff]
      exact not_lt.mp hd

unseal Rat.add Rat.sub Rat.mul Rat.inv in
/-- C4 witness: on `exTreeC4`, child branch id 3 hangs at path distance 2
of a parent of length 6, so the distance to the branch end is 4 < 10 and
the child is classified TERMINAL (and not INTERSTITIAL, as 10 is not at
most 4). -/
theorem claim_C4_witness :
    ∃ st'',
      recursiveFiloTypes 1 [3, 5] exTreeC4 0 1 true true 10 10
        ⟨mkMat 1 2 .ABSENT, mkMat 1 2 []⟩ = some st'' ∧
      (bC4.totalLength - bC4.cumulativeLengths.getD 0 0 < 10 →
        getFT st'' 0 (List.indexOf 3 [3, 5]) = .TERMINAL) ∧
      (getFT st'' 0 (List.indexOf 3 [3, 5]) = .INTERSTITIAL ↔
        10 ≤ bC4.totalLength - bC4.cumulativeLengths.getD 0 0) :=
  claim_C4 0 [3, 5] exTreeC4 0 1 true true 10 10
    ⟨mkMat 1 2 .ABSENT, mkMat 1 2 []⟩ bC4 [] [pt 4 []] (pt 2 [cC4]) [] []
    cC4 rfl rfl rfl (by decide) (by decide) (by decide) (by decide)
    (by decide) (by decide) (by decide) (by decide) (by decide) (by decide)
    (by decide) (by decide) (by decide) (by decide)

/-- C6: a filopodium child that is the only child at the parent branch's
last point (every sibling anywhere on the parent being a filopodium) is
overridden to BRANCH_ONLY, and its master-node set becomes the singleton
holding the parent's branch index. -/
theorem claim_C6 (fuel : Nat) (branchIDList : List Nat) (tree : Tree)
    (treeIdx parentIdx : Nat) (exA exB : Bool) (tD fD : ℚ) (st : CState)
    (branch : Branch) (P1 : List Point) (pnt : Point) (c : Branch)
    (hlook : tree.getBranchByID (branchIDList.getD parentIdx 0) = some branch)
    (hsplit : branch.points = P1 ++ [pnt])
    (hcs : pnt.children = [c])
    (hax : (exA && branch.isAxon) = false)
    (hbas : (exB && branch.isBasal) = false)
    (hallfilo : ∀ p ∈ branch.points, ∀ d ∈ p.children,
      FiloOnly branchIDList fD d)
    (hc1 : 1 ≤ c.points.length) (hc2 : c.id ∈ branchIDList)
    (hpar : branchIDList.indexOf c.id ≠ parentIdx)
    (hIdxAll : ∀ p ∈ branch.points, ∀ d ∈ p.children,
      (tree.branchIndex d).isSome = true)
    (hrowf : treeIdx < st.filoTypes.length)
    (hcolf : branchIDList.indexOf c.id < (rowAt st.filoTypes treeIdx).length)
    (hrowm : treeIdx < st.masterNodes.length)
    (hcolm : branchIDList.indexOf c.id <
      (rowAt st.masterNodes treeIdx).length) :
    ∃ st'',
      recursiveFiloTypes (fuel + 1) branchIDList tree treeIdx parentIdx
        exA exB tD fD st = some st'' ∧
      getFT st'' treeIdx (branchIDList.indexOf c.id) = .BRANCH_ONLY ∧
      getMN st'' treeIdx (branchIDList.indexOf c.id) = [parentIdx] := by
  obtain ⟨st'', heq, hovr, _⟩ := recursiveFiloTypes_filoChild fuel
    branchIDList tree treeIdx parentIdx exA exB tD fD st branch P1 [] pnt
    [] [] c hlook (by rw [hsplit]) (by rw [hcs]; rfl) hax hbas hallfilo
    hc1 hc2 (by intro d hd; cases hd) (by intro p hp; cases hp) hpar
    hIdxAll hrowf hcolf hrowm hcolm
  refine ⟨st'', heq, ?_⟩
  apply hovr
  constructor
  · rw [hcs]
    rfl
  · rw [hsplit]
    simp

unseal Rat.add Rat.sub Rat.mul Rat.inv in
/-- C6 witness: on `exTreeC6`, child branch id 3 is the only child at the
parent's last point; it is overridden to BRANCH_ONLY with master-node set
[1], the parent's global index. -/
theorem claim_C6_witness :
    ∃ st'',
      recursiveFiloTypes 1 [3, 5] exTreeC6 0 1 true true 10 10
        ⟨mkMat 1 2 .ABSENT, mkMat 1 2 []⟩ = some st'' ∧
      getFT st'' 0 (List.indexOf 3 [3, 5]) = .BRANCH_ONLY ∧
      getMN st'' 0 (List.indexOf 3 [3, 5]) = [1] :=
  claim_C6 0 [3, 5] exTreeC6 0 1 true true 10 10
    ⟨mkMat 1 2 .ABSENT, mkMat 1 2 []⟩ bC6 [pt 2 []] (pt 3 [cC6]) cC6
    rfl rfl rfl (by decide) (by decide) (by decide) (by decide) (by decide)
    (by decide) (by decide) (by decide) (by decide) (by decide) (by decide)

end PyDynamo
